import Mathlib

/-!
Verification development for the rule evaluation core of a Markdown linter
(`lib/rules.js`).  The JavaScript source is shallowly embedded: tokens become a
record type, each rule becomes an executable Lean function over the token list,
the raw line list and an option record, and a JavaScript `TypeError` (an access
on `undefined`) is modelled by returning `none` from an `Option`-valued
function.  Regular-expression tests are hand-compiled to character-list
predicates; each carries a comment giving the original pattern.
-/

namespace Markdownlint

/-- Character class of the JavaScript regex `\\s` (and of `String.prototype.trim`):
space, tab, LF, VT, FF, CR, NBSP, Ogham space, the U+2000-U+200A spaces, the
U+2028/U+2029 separators, NNBSP, MMSP, ideographic space and the byte-order mark. -/
def jsSpace (c : Char) : Bool :=
  c == ' ' || c == '\t' || c == '\n' || c == '\x0b' || c == '\x0c' || c == '\r' ||
  c.toNat == 0xa0 || c.toNat == 0x1680 ||
  (decide (0x2000 ≤ c.toNat) && decide (c.toNat ≤ 0x200a)) ||
  c.toNat == 0x2028 || c.toNat == 0x2029 || c.toNat == 0x202f || c.toNat == 0x205f ||
  c.toNat == 0x3000 || c.toNat == 0xfeff

/-- JavaScript line terminators, the characters the regex `.` does not match. -/
def isLineTerm (c : Char) : Bool :=
  c == '\n' || c == '\r' || c.toNat == 0x2028 || c.toNat == 0x2029

/-- JavaScript `String.prototype.trimLeft`. -/
def jsTrimLeft (s : String) : String :=
  String.mk (s.data.dropWhile jsSpace)

/-- JavaScript `String.prototype.trim`. -/
def jsTrim (s : String) : String :=
  String.mk (((s.data.dropWhile jsSpace).reverse.dropWhile jsSpace).reverse)

/-- An inline child span: only its kind tag and string content are ever read
(by MD011's `filterTokens(token.children, "text")` loop). -/
structure Span where
  type : String
  content : String
deriving DecidableEq, Repr

/-- A parser token as consumed by the rules.  `lines` is the half-open 0-indexed
line range (the JS `token.lines`, absent on tokens the tokenizer gives no map);
`line` is the raw text of the token's first line; `lineNumber` is 1-indexed;
`children` are the inline child spans. -/
structure Tok where
  type : String
  lines : Option (Nat × Nat)
  line : String
  lineNumber : Nat
  hLevel : Nat
  content : String
  children : List Span
deriving DecidableEq, Repr

/-- Per-rule configuration; `none` models an absent option. -/
structure Options where
  style : Option String
  indent : Option Nat
  line_length : Option Nat
  ul_single : Option Nat
  ol_single : Option Nat
  ul_multi : Option Nat
  ol_multi : Option Nat
  punctuation : Option String
deriving DecidableEq, Repr

/-- The empty configuration record. -/
def noOptions : Options := ⟨none, none, none, none, none, none, none, none⟩

/-- JavaScript `value || default` for numeric options: `0` (and absence) is falsy. -/
def jsOrNat (v : Option Nat) (dflt : Nat) : Nat :=
  match v with
  | some n => if n == 0 then dflt else n
  | none => dflt

/-- JavaScript `value || default` for string options: `""` (and absence) is falsy. -/
def jsOrStr (v : Option String) (dflt : String) : String :=
  match v with
  | some s => if s == "" then dflt else s
  | none => dflt

/-- The input record handed to every rule. -/
structure Params where
  lines : List String
  tokens : List Tok
  options : Options
deriving DecidableEq, Repr

/-- `indentFor` from the source: width of the leading whitespace of the token's line. -/
def indentFor (t : Tok) : Nat :=
  t.line.length - (jsTrimLeft t.line).length

/-- `unorderedListStyleFor` from the source: first character of the trimmed line. -/
def unorderedListStyleFor (t : Tok) : String :=
  match (jsTrimLeft t.line).data with
  | '-' :: _ => "dash"
  | '+' :: _ => "plus"
  | _ => "asterisk"

/-- Regex `#\s*$`: after stripping the trailing whitespace run, the line ends
in a hash. -/
def hashThenSpacesEnd (s : String) : Bool :=
  match s.data.reverse.dropWhile jsSpace with
  | '#' :: _ => true
  | _ => false

/-- `headingStyleFor` from the source: single-line headings are `atx` or (with
a trailing hash) `atx_closed`, multi-line headings are `setext`; reading
`token.lines` of a token without a map throws, hence `none`. -/
def headingStyleFor (t : Tok) : Option String :=
  match t.lines with
  | none => none
  | some (a, b) =>
    if b - a == 1 then
      (if hashThenSpacesEnd t.line then some "atx_closed" else some "atx")
    else some "setext"

/-- `filterTokens` from the source.  The second type is `none` when the JS call
passes only one type (`undefined` compares unequal to every type string). -/
def filterTokens (tokens : List Tok) (typeA : String) (typeB : Option String) : List Tok :=
  tokens.filter fun t => t.type == typeA || some t.type == typeB

/-- Regex `^(```|~~~)` (three backticks, written by code point, or three tildes). -/
def isFenceLine (s : String) : Bool :=
  match s.data with
  | a :: b :: c :: _ =>
    (a.toNat == 96 && b.toNat == 96 && c.toNat == 96) ||
    (a == '~' && b == '~' && c == '~')
  | _ => false

/-- Regex `\s$`: the line ends in a whitespace character. -/
def endsInSpace (s : String) : Bool :=
  match s.data.getLast? with
  | some c => jsSpace c
  | none => false

/-- Regex `#$`: the line ends in a hash. -/
def endsInHash (s : String) : Bool :=
  s.data.getLast? == some '#'

/-- Regex `^#+[^#\s]`: one or more leading hashes followed by a character that is
neither a hash nor whitespace. -/
def hashStartNoSpace (s : String) : Bool :=
  match s.data with
  | '#' :: _ =>
    (match s.data.dropWhile (· == '#') with
     | [] => false
     | c :: _ => !jsSpace c)
  | _ => false

/-- The MD018 line test: `/^#+[^#\s]/.test(line) && !/#$/.test(line)`. -/
def md018Cond (s : String) : Bool :=
  hashStartNoSpace s && !endsInHash s

/-- Regex `^#+[^#]*[^\\]#+$`: the whole line decomposes as a nonempty hash run,
then non-hash characters, then one character other than backslash, then a
nonempty hash run. -/
def md020reA (s : String) : Bool :=
  let cs := s.data
  let n := cs.length
  (List.range (n + 1)).any fun a =>
    (List.range (n + 1)).any fun b =>
      decide (1 ≤ a) && decide (a + b + 2 ≤ n) &&
      (cs.take a).all (· == '#') &&
      ((cs.drop a).take b).all (fun c => !(c == '#')) &&
      (match cs[a + b]? with
       | some c => !(c == '\\')
       | none => false) &&
      (cs.drop (a + b + 1)).all (· == '#')

/-- Regex `[^#\s]#+$`: a nonempty trailing hash run preceded by a character that
is neither a hash nor whitespace. -/
def md020trail (s : String) : Bool :=
  match s.data.reverse with
  | '#' :: _ =>
    (match s.data.reverse.dropWhile (· == '#') with
     | [] => false
     | c :: _ => !jsSpace c)
  | _ => false

/-- The MD020 line test:
`/^#+[^#]*[^\\]#+$/.test(line) && (/^#+[^#\s]/.test(line) || /[^#\s]#+$/.test(line))`. -/
def md020Cond (s : String) : Bool :=
  md020reA s && (hashStartNoSpace s || md020trail s)

/-- Regex `^(-+|=+)\s*$` (MD022's setext-underline test on inline content lines). -/
def underlineRe (s : String) : Bool :=
  (match s.data with
   | '-' :: _ => (s.data.dropWhile (· == '-')).all jsSpace
   | _ => false) ||
  (match s.data with
   | '=' :: _ => (s.data.dropWhile (· == '=')).all jsSpace
   | _ => false)

/-- Regex `^([\*\+\-]|(\d+\.))\s` (MD032's list-marker test, applied to trimmed lines). -/
def md032Marker (s : String) : Bool :=
  (match s.data with
   | c :: d :: _ => (c == '*' || c == '+' || c == '-') && jsSpace d
   | _ => false) ||
  (match s.data with
   | c :: _ =>
     c.isDigit &&
     (match s.data.dropWhile Char.isDigit with
      | '.' :: e :: _ => jsSpace e
      | _ => false)
   | _ => false)

/-- Regex `^($|\s)`: the line is empty or starts with whitespace. -/
def blankStart (s : String) : Bool :=
  match s.data with
  | [] => true
  | c :: _ => jsSpace c

/-- Regex `^\s`: the line starts with a whitespace character. -/
def startsWithSpace (s : String) : Bool :=
  match s.data with
  | c :: _ => jsSpace c
  | _ => false

/-- Regex `^#+\s\s`: one or more leading hashes followed by two whitespace
characters. -/
def hashSpaceSpaceRe (s : String) : Bool :=
  match s.data with
  | '#' :: _ =>
    (match s.data.dropWhile (· == '#') with
     | c :: d :: _ => jsSpace c && jsSpace d
     | _ => false)
  | _ => false

/-- Regex `\s\s#+$`: a nonempty trailing hash run preceded by two whitespace
characters. -/
def spaceSpaceHashEndRe (s : String) : Bool :=
  match s.data.reverse with
  | '#' :: _ =>
    (match s.data.reverse.dropWhile (· == '#') with
     | c :: d :: _ => jsSpace c && jsSpace d
     | _ => false)
  | _ => false

/-- Regex `^\s*>\s\s` (MD027): optional leading whitespace, the blockquote
symbol, then two whitespace characters. -/
def blockquoteSpaceRe (s : String) : Bool :=
  match s.data.dropWhile jsSpace with
  | '>' :: c :: d :: _ => jsSpace c && jsSpace d
  | _ => false

/-- Regex `^\$\s` (MD014): a dollar sign followed by whitespace. -/
def dollarSpaceRe (s : String) : Bool :=
  match s.data with
  | '$' :: c :: _ => jsSpace c
  | _ => false

/-- Regex `\([^)]+\)\[[^\]]+\]` (MD011): somewhere in the string, a
parenthesized nonempty segment immediately followed by a bracketed nonempty
segment — the reversed link pattern. -/
def reversedLinkRe (s : String) : Bool :=
  let cs := s.data
  let n := cs.length
  (List.range n).any fun i =>
    (List.range n).any fun j =>
      (List.range n).any fun k =>
        (cs[i]? == some '(') && decide (i + 2 ≤ j) && (cs[j]? == some ')') &&
        ((cs.drop (i + 1)).take (j - i - 1)).all (fun c => !(c == ')')) &&
        (cs[j + 1]? == some '[') && decide (j + 3 ≤ k) && (cs[k]? == some ']') &&
        ((cs.drop (j + 2)).take (k - j - 2)).all (fun c => !(c == ']'))

/-- MD029's `new RegExp("^\\s*" + String(number) + "\\. ")`: after the leading
whitespace run, the line continues with the decimal numeral, a period and a
space. -/
def md029Marker (number : Nat) (s : String) : Bool :=
  List.isPrefixOf (toString number ++ ". ").data (s.data.dropWhile jsSpace)

/-- MD030's `/^\s*\S+(\s+)/.exec(item.line)`: `some n` is the length of the
captured whitespace run after the first nonspace run, `none` means the regex
does not match (so `match[1]` would throw in JS). -/
def md030spaces (s : String) : Option Nat :=
  let rest := s.data.dropWhile jsSpace
  match rest with
  | [] => none
  | _ =>
    let after := rest.dropWhile (fun c => !jsSpace c)
    match after with
    | [] => none
    | _ => some (after.takeWhile jsSpace).length

/-- Accumulating splitter for `splitNewlines`; `cur` holds the current segment
reversed. -/
def splitNewlinesGo (cur : List Char) : List Char → List String
  | [] => [String.mk cur.reverse]
  | c :: rest =>
    if c == '\n' then String.mk cur.reverse :: splitNewlinesGo [] rest
    else splitNewlinesGo (c :: cur) rest

/-- Modelled from the spec: `shared.newLineRe` lives in the repository's shared
module, which is not under `src/`; the spec says inline content is split into
its physical lines, so the content string is split at newlines. -/
def splitNewlines (s : String) : List String :=
  splitNewlinesGo [] s.data

/-- Regex `^.{L}.*\s` used by MD013: some position `j ≥ L` holds a whitespace
character, with no line terminator before it (the characters matched by `.`). -/
def md013Flag (L : Nat) (s : String) : Bool :=
  (List.range s.data.length).any fun j =>
    (match s.data[j]? with
     | some c => jsSpace c
     | none => false) &&
    decide (L ≤ j) &&
    (s.data.take j).all (fun c => !isLineTerm c)

/-- Line indices covered by `code_block` tokens (`forEachLine`'s `codeLines`);
`none` models the TypeError on a `code_block` token without a line map. -/
def codeLinesOf : List Tok → Option (List Nat)
  | [] => some []
  | t :: rest =>
    if t.type == "code_block" then
      match t.lines with
      | none => none
      | some (a, b) =>
        (codeLinesOf rest).map (fun r => ((List.range (b - a)).map (a + ·)) ++ r)
    else codeLinesOf rest

/-- The per-line context handed to `forEachLine` callbacks. -/
structure Ctx where
  line : String
  idx : Nat
  inCode : Bool
  onFence : Bool
deriving DecidableEq, Repr

/-- The single left-to-right scan of `forEachLine`: the fence toggle is applied
before the line is classified, then `inCode` is the post-toggle fence state or
membership in the indented-code-block line set. -/
def scanLines (cl : List Nat) (f : Bool) (i : Nat) : List String → List Ctx
  | [] => []
  | l :: rest =>
    let onF := isFenceLine l
    let f' := if onF then !f else f
    ⟨l, i, f' || cl.contains i, onF⟩ :: scanLines cl f' (i + 1) rest

/-- `forEachLine` from the source, reified as the list of callback contexts. -/
def forEachLineCtx (p : Params) : Option (List Ctx) :=
  (codeLinesOf p.tokens).map (fun cl => scanLines cl false 0 p.lines)

/-- An in-progress list descriptor on `flattenLists`' stack.  `openIdx` records
the position of the `open` token in the token sequence (the identity of the JS
token object); `insert` is the recorded output insertion point. -/
structure Pending where
  ordered : Bool
  openTok : Tok
  openIdx : Nat
  items : List Tok
  nesting : Nat
  insert : Nat
deriving DecidableEq, Repr

/-- A finalized list descriptor (the JS object after `delete current.insert`). -/
structure LD where
  ordered : Bool
  openTok : Tok
  openIdx : Nat
  items : List Tok
  nesting : Nat
  lastLineIndex : Nat
deriving DecidableEq, Repr

/-- `lists.splice(k, 0, d)`. -/
def splice (l : List LD) (k : Nat) (d : LD) : List LD :=
  l.take k ++ d :: l.drop k

/-- The descriptor finalized on a list-close: `current` with `lastLineIndex`
set to `lastWithLines.lines[1]` (and the `insert` field deleted). -/
def closedLD (cur : Pending) (b : Nat) : LD :=
  ⟨cur.ordered, cur.openTok, cur.openIdx, cur.items, cur.nesting, b⟩

/-- The output update on a list-close: splice the finalized descriptor into
the output at the recorded insertion point when `filterBy` is absent or
matches the descriptor's orderedness, else leave the output unchanged. -/
def closeStep (fb : Option Bool) (lists : List LD) (cur : Pending) (b : Nat) : List LD :=
  if (match fb with
      | none => true
      | some v => v == cur.ordered)
  then splice lists cur.insert (closedLD cur b) else lists

/-- The body of `flattenLists`: a linear scan carrying the output so far, the
stack of saved contexts, the current descriptor and the last token that had a
line map.  `none` models the TypeErrors (`current.…` or `lastWithLines.…` on a
null value). -/
def flGo (fb : Option Bool) :
    List Tok → Nat → List LD → List (Option Pending) → Option Pending → Option Tok →
    Option (List LD)
  | [], _, lists, _, _, _ => some lists
  | t :: rest, i, lists, stack, current, lastWL =>
    if t.type == "bullet_list_open" || t.type == "ordered_list_open" then
      flGo fb rest (i + 1) lists (current :: stack)
        (some ⟨t.type == "ordered_list_open", t, i, [], stack.length, lists.length⟩) lastWL
    else if t.type == "bullet_list_close" || t.type == "ordered_list_close" then
      match current with
      | none => none
      | some cur =>
        match lastWL with
        | none => none
        | some lw =>
          match lw.lines with
          | none => none
          | some (_, b) =>
            match stack with
            | [] => flGo fb rest (i + 1) (closeStep fb lists cur b) [] none lastWL
            | c :: s => flGo fb rest (i + 1) (closeStep fb lists cur b) s c lastWL
    else if t.type == "list_item_open" then
      match current with
      | none => none
      | some cur =>
        flGo fb rest (i + 1) lists stack
          (some ⟨cur.ordered, cur.openTok, cur.openIdx, cur.items ++ [t], cur.nesting, cur.insert⟩)
          lastWL
    else if t.lines.isSome then
      flGo fb rest (i + 1) lists stack current (some t)
    else
      flGo fb rest (i + 1) lists stack current lastWL

/-- `flattenLists` from the source; `fb = none` models an `undefined` filter. -/
def flattenLists (tokens : List Tok) (fb : Option Bool) : Option (List LD) :=
  flGo fb tokens 0 [] [] none none

/-- The in-progress descriptors, innermost first: the current one followed by
the non-null saved contexts on the stack. -/
def pendsOf (current : Option Pending) (stack : List (Option Pending)) : List Pending :=
  (current :: stack).filterMap id

/-- The positional facts `flattenLists` maintains for one in-progress
descriptor: it was opened before the scan position, its insertion point lies
within the output, everything before the insertion point was opened earlier
and everything at or after it was opened later. -/
def goodPend (i : Nat) (lists : List LD) (q : Pending) : Prop :=
  q.openIdx < i ∧ q.insert ≤ lists.length ∧
  (∀ d ∈ lists.take q.insert, d.openIdx < q.openIdx) ∧
  (∀ d ∈ lists.drop q.insert, q.openIdx < d.openIdx)

/-- The full loop invariant of `flattenLists`: the output is strictly ordered
by open position and wholly opened before the scan position, every in-progress
descriptor is positioned consistently with the output, and the in-progress
descriptors (innermost first) have decreasing insertion points and decreasing
open positions outward. -/
def FlInv (i : Nat) (lists : List LD) (stack : List (Option Pending))
    (current : Option Pending) : Prop :=
  lists.Pairwise (fun a b => a.openIdx < b.openIdx) ∧
  (∀ d ∈ lists, d.openIdx < i) ∧
  (∀ q ∈ pendsOf current stack, goodPend i lists q) ∧
  (pendsOf current stack).Pairwise (fun a b => b.insert ≤ a.insert ∧ b.openIdx < a.openIdx)

/-- In-progress descriptors of two runs that differ only in the filter agree
on everything except the recorded insertion point. -/
def pendEqCore (a b : Pending) : Prop :=
  a.ordered = b.ordered ∧ a.openTok = b.openTok ∧ a.openIdx = b.openIdx ∧
  a.items = b.items ∧ a.nesting = b.nesting

/-- `pendEqCore` lifted to the nullable slots of the stack. -/
def optPendRel : Option Pending → Option Pending → Prop
  | none, none => True
  | some a, some b => pendEqCore a b
  | _, _ => False

/-- MD004's loop body over flattened lists, threading the mutable `style`
variable; accessing `list.items[0]` of an itemless list while the style is
still `consistent` throws in JS, hence `none`. -/
def md004Go (style : String) : List LD → Option (List Nat)
  | [] => some []
  | l :: rest =>
    let styOpt : Option String :=
      if style == "consistent" then (l.items[0]?).map unorderedListStyleFor else some style
    match styOpt with
    | none => none
    | some sty =>
      (md004Go sty rest).map fun r =>
        (l.items.filterMap fun it =>
          if !(unorderedListStyleFor it == sty) then some it.lineNumber else none) ++ r

/-- MD004 (unordered list style). -/
def MD004 (p : Params) : Option (List Nat) :=
  (flattenLists p.tokens (some false)).bind (md004Go (jsOrStr p.options.style "consistent"))

/-- MD005's loop body: `indentFor(list.items[0])` throws on an itemless list. -/
def md005Go : List LD → Option (List Nat)
  | [] => some []
  | l :: rest =>
    match l.items[0]? with
    | none => none
    | some h =>
      let ind := indentFor h
      (md005Go rest).map fun r =>
        (l.items.filterMap fun it =>
          if !(indentFor it == ind) then some it.lineNumber else none) ++ r

/-- MD005 (inconsistent indentation for list items at the same level). -/
def MD005 (p : Params) : Option (List Nat) :=
  (flattenLists p.tokens none).bind md005Go

/-- MD007's loop body, threading the mutable `prevIndent`. -/
def md007Go (optIndent prevIndent : Nat) : List LD → List Nat
  | [] => []
  | l :: rest =>
    let ind := indentFor l.openTok
    (if decide (ind > prevIndent) && !((ind - prevIndent) == optIndent)
     then [l.openTok.lineNumber] else []) ++ md007Go optIndent ind rest

/-- MD007 (unordered list indentation). -/
def MD007 (p : Params) : Option (List Nat) :=
  (flattenLists p.tokens (some false)).map (md007Go (jsOrNat p.options.indent 2) 0)

/-- MD009's line loop. -/
def md009Go (i : Nat) : List String → List Nat
  | [] => []
  | l :: rest => (if endsInSpace l then [i + 1] else []) ++ md009Go (i + 1) rest

/-- MD009 (trailing spaces). -/
def MD009 (p : Params) : List Nat :=
  md009Go 0 p.lines

/-- MD010's line loop (regex `\t`). -/
def md010Go (i : Nat) : List String → List Nat
  | [] => []
  | l :: rest => (if l.data.any (· == '\t') then [i + 1] else []) ++ md010Go (i + 1) rest

/-- MD010 (hard tabs). -/
def MD010 (p : Params) : List Nat :=
  md010Go 0 p.lines

/-- MD012's `forEachLine` callback, threading the trimmed previous line
(initially the sentinel `"-"`). -/
def md012Go (prevLine : String) : List Ctx → List Nat
  | [] => []
  | c :: rest =>
    let t := jsTrim c.line
    (if !c.inCode && t == "" && prevLine == "" then [c.idx + 1] else []) ++ md012Go t rest

/-- MD012 (multiple consecutive blank lines). -/
def MD012 (p : Params) : Option (List Nat) :=
  (forEachLineCtx p).map (md012Go "-")

/-- MD013's line loop. -/
def md013Go (L i : Nat) : List String → List Nat
  | [] => []
  | l :: rest => (if md013Flag L l then [i + 1] else []) ++ md013Go L (i + 1) rest

/-- MD013 (line length). -/
def MD013 (p : Params) : List Nat :=
  md013Go (jsOrNat p.options.line_length 80) 0 p.lines

/-- MD018's `forEachLine` callback. -/
def md018Go : List Ctx → List Nat
  | [] => []
  | c :: rest => (if !c.inCode && md018Cond c.line then [c.idx + 1] else []) ++ md018Go rest

/-- MD018 (no space after hash on atx style header). -/
def MD018 (p : Params) : Option (List Nat) :=
  (forEachLineCtx p).map md018Go

/-- MD020's `forEachLine` callback. -/
def md020Go : List Ctx → List Nat
  | [] => []
  | c :: rest => (if !c.inCode && md020Cond c.line then [c.idx + 1] else []) ++ md020Go rest

/-- MD020 (no space inside hashes on closed atx style header). -/
def MD020 (p : Params) : Option (List Nat) :=
  (forEachLineCtx p).map md020Go

/-- MD022's pushes for setext-like underlines found inside an inline token's
content; `token.lines[0]` is read only when a push happens, and throws if the
inline token has no line map. -/
def md022Inline (baseLines : Option (Nat × Nat)) (offset : Nat) :
    List String → Option (List Nat)
  | [] => some []
  | l :: rest =>
    if underlineRe l then
      match baseLines with
      | none => none
      | some (a, _) => (md022Inline baseLines (offset + 1) rest).map fun r => (a + offset) :: r
    else md022Inline baseLines (offset + 1) rest

/-- MD022's token loop, threading `prevHeadingLineNumber`, `prevMaxLineIndex`
(an `Int`, initially `-1`) and `needBlankLine`.  Each iteration first dispatches
on the token type, then runs the `if (token.lines)` block. -/
def md022Go (prevHeading : Nat) (prevMax : Int) (needBlank : Bool) :
    List Tok → Option (List Nat)
  | [] => some []
  | t :: rest =>
    let step : Option (List Nat × Nat) :=
      if t.type == "heading_open" then
        match t.lines with
        | none => none
        | some (a, _) =>
          some (if ((a : Int) - prevMax) == 0 then [t.lineNumber] else [], t.lineNumber)
      else if t.type == "inline" then
        (md022Inline t.lines 0 (splitNewlines t.content)).map fun e => (e, prevHeading)
      else
        some ([], prevHeading)
    let nb := if t.type == "heading_close" then true else needBlank
    match step with
    | none => none
    | some (emit1, ph) =>
      match t.lines with
      | none => (md022Go ph prevMax nb rest).map (emit1 ++ ·)
      | some (a, b) =>
        let emit2 := if nb && (((a : Int) - prevMax) == 0) then [ph] else []
        let newMax : Int := if prevMax < (b : Int) then (b : Int) else prevMax
        (md022Go ph newMax false rest).map fun r => emit1 ++ emit2 ++ r

/-- MD022 (headers should be surrounded by blank lines). -/
def MD022 (p : Params) : Option (List Nat) :=
  md022Go 0 (-1) false p.tokens

/-- MD025's loop over `heading_open` tokens, threading `hasTopLevelHeading`. -/
def md025Go (hasTop : Bool) : List Tok → List Nat
  | [] => []
  | t :: rest =>
    if t.hLevel == 1 then
      if hasTop then t.lineNumber :: md025Go hasTop rest
      else if t.lineNumber == 1 then md025Go true rest
      else md025Go hasTop rest
    else md025Go hasTop rest

/-- MD025 (multiple top level headers in the same document). -/
def MD025 (p : Params) : List Nat :=
  md025Go false (filterTokens p.tokens "heading_open" none)

/-- MD030's inner item loop: `match[1].length` throws when the marker regex
does not match the item's line. -/
def md030Items (expected : Nat) : List Tok → Option (List Nat)
  | [] => some []
  | it :: rest =>
    match md030spaces it.line with
    | none => none
    | some n =>
      (md030Items expected rest).map fun r =>
        (if !(n == expected) then [it.lineNumber] else []) ++ r

/-- MD030's list loop; `list.open.lines[0]` throws when the open token has no map. -/
def md030Go (ulS olS ulM olM : Nat) : List LD → Option (List Nat)
  | [] => some []
  | l :: rest =>
    match l.openTok.lines with
    | none => none
    | some (a, _) =>
      let lineCount : Int := (l.lastLineIndex : Int) - (a : Int)
      let allSingle := lineCount == (l.items.length : Int)
      let expected := if l.ordered then (if allSingle then olS else olM)
                      else (if allSingle then ulS else ulM)
      (md030Items expected l.items).bind fun e =>
        (md030Go ulS olS ulM olM rest).map fun r => e ++ r

/-- MD030 (spaces after list markers). -/
def MD030 (p : Params) : Option (List Nat) :=
  (flattenLists p.tokens none).bind
    (md030Go (jsOrNat p.options.ul_single 1) (jsOrNat p.options.ol_single 1)
      (jsOrNat p.options.ul_multi 1) (jsOrNat p.options.ol_multi 1))

/-- MD031's per-line condition: a fence line whose previous line (when the
post-toggle state is in-code) or next line (otherwise) exists and is nonempty. -/
def md031Cond (lines : List String) (c : Ctx) : Bool :=
  c.onFence &&
  ((c.inCode && decide (1 ≤ c.idx) && !((lines.getD (c.idx - 1) "").length == 0)) ||
   (!c.inCode && decide (c.idx + 1 < lines.length) &&
    !((lines.getD (c.idx + 1) "").length == 0)))

/-- MD031's `forEachLine` callback. -/
def md031Go (lines : List String) : List Ctx → List Nat
  | [] => []
  | c :: rest => (if md031Cond lines c then [c.idx + 1] else []) ++ md031Go lines rest

/-- MD031 (fenced code blocks should be surrounded by blank lines). -/
def MD031 (p : Params) : Option (List Nat) :=
  (forEachLineCtx p).map (md031Go p.lines)

/-- MD032's `forEachLine` callback, threading `inList` and `prevLine`. -/
def md032Go (inList : Bool) (prevLine : String) : List Ctx → List Nat
  | [] => []
  | c :: rest =>
    let act := !c.inCode || c.onFence
    let lm := md032Marker (jsTrim c.line)
    let emit : List Nat :=
      if act then
        if lm && !inList && !blankStart prevLine then [c.idx + 1]
        else if !lm && inList && !blankStart c.line then [c.idx]
        else []
      else []
    let inList1 := if act then lm else inList
    emit ++ md032Go (inList1 && !c.onFence) c.line rest

/-- MD032 (lists should be surrounded by blank lines). -/
def MD032 (p : Params) : Option (List Nat) :=
  (forEachLineCtx p).map (md032Go false "")

/-- MD001's loop over `heading_open` tokens, threading `prevLevel`
(initially 0, i.e. falsy before any heading is seen). -/
def md001Go (prevLevel : Nat) : List Tok → List Nat
  | [] => []
  | t :: rest =>
    (if prevLevel != 0 && t.hLevel > prevLevel + 1 then [t.lineNumber] else []) ++
    md001Go t.hLevel rest

/-- MD001 (header levels should only increment by one level at a time). -/
def MD001 (p : Params) : List Nat :=
  md001Go 0 (filterTokens p.tokens "heading_open" none)

/-- MD002's `tokens.every` loop: stop at the first `heading_open`, flagging it
when its level is not 1. -/
def md002Go : List Tok → List Nat
  | [] => []
  | t :: rest =>
    if t.type == "heading_open" then (if t.hLevel != 1 then [t.lineNumber] else [])
    else md002Go rest

/-- MD002 (first header should be a h1 header). -/
def MD002 (p : Params) : List Nat :=
  md002Go p.tokens

/-- MD003's flagging loop: every heading whose style differs from the resolved
style flags; computing a heading's style can throw. -/
def md003Flags (style : String) : List Tok → Option (List Nat)
  | [] => some []
  | t :: rest =>
    match headingStyleFor t with
    | none => none
    | some sty =>
      (md003Flags style rest).map fun r =>
        (if !(sty == style) then [t.lineNumber] else []) ++ r

/-- MD003 (header style).  The source resolves `style` to the first heading's
style when it is `consistent` and at least one heading exists (`headings.length`
truthy); the branch order here checks the headings first, which is equivalent. -/
def MD003 (p : Params) : Option (List Nat) :=
  let headings := filterTokens p.tokens "heading_open" none
  let style0 := jsOrStr p.options.style "consistent"
  match (match headings with
         | [] => some style0
         | h :: _ => if style0 == "consistent" then headingStyleFor h else some style0) with
  | none => none
  | some style => md003Flags style headings

/-- MD006's loop: a top-level (nesting 0) list whose open line is indented flags. -/
def md006Go : List LD → List Nat
  | [] => []
  | l :: rest =>
    (if l.nesting == 0 && indentFor l.openTok != 0 then [l.openTok.lineNumber] else []) ++
    md006Go rest

/-- MD006 (consider starting bulleted lists at the beginning of the line). -/
def MD006 (p : Params) : Option (List Nat) :=
  (flattenLists p.tokens (some false)).map md006Go

/-- MD011's inner loop over an inline token's `text` children: each child whose
content matches the reversed-link pattern pushes the token's line number. -/
def md011Children (ln : Nat) : List Span → List Nat
  | [] => []
  | c :: rest =>
    (if c.type == "text" && reversedLinkRe c.content then [ln] else []) ++
    md011Children ln rest

/-- MD011's loop over `inline` tokens. -/
def md011Go : List Tok → List Nat
  | [] => []
  | t :: rest => md011Children t.lineNumber t.children ++ md011Go rest

/-- MD011 (reversed link syntax). -/
def MD011 (p : Params) : List Nat :=
  md011Go (filterTokens p.tokens "inline" none)

/-- MD014's per-token test: the content is truthy (nonempty) and every
nonempty content line starts with a dollar sign and whitespace (vacuously true
when no nonempty line remains, as in the source's `every`). -/
def md014TokenFlag (t : Tok) : Bool :=
  !(t.content == "") &&
  ((splitNewlines t.content).filter (fun l => !(l == ""))).all dollarSpaceRe

/-- MD014's loop over `code_block` and `fence` tokens. -/
def md014Go : List Tok → List Nat
  | [] => []
  | t :: rest => (if md014TokenFlag t then [t.lineNumber] else []) ++ md014Go rest

/-- MD014 (dollar signs used before commands without showing output). -/
def MD014 (p : Params) : List Nat :=
  md014Go (filterTokens p.tokens "code_block" (some "fence"))

/-- MD019's loop over `heading_open` tokens; the style test runs first and can
throw. -/
def md019Go : List Tok → Option (List Nat)
  | [] => some []
  | t :: rest =>
    match headingStyleFor t with
    | none => none
    | some sty =>
      (md019Go rest).map fun r =>
        (if sty == "atx" && hashSpaceSpaceRe t.line then [t.lineNumber] else []) ++ r

/-- MD019 (multiple spaces after hash on atx style header). -/
def MD019 (p : Params) : Option (List Nat) :=
  md019Go (filterTokens p.tokens "heading_open" none)

/-- MD021's loop over `heading_open` tokens. -/
def md021Go : List Tok → Option (List Nat)
  | [] => some []
  | t :: rest =>
    match headingStyleFor t with
    | none => none
    | some sty =>
      (md021Go rest).map fun r =>
        (if sty == "atx_closed" && (hashSpaceSpaceRe t.line || spaceSpaceHashEndRe t.line)
         then [t.lineNumber] else []) ++ r

/-- MD021 (multiple spaces inside hashes on closed atx style header). -/
def MD021 (p : Params) : Option (List Nat) :=
  md021Go (filterTokens p.tokens "heading_open" none)

/-- MD023's loop over `heading_open` tokens (regex `^\s`). -/
def md023Go : List Tok → List Nat
  | [] => []
  | t :: rest => (if startsWithSpace t.line then [t.lineNumber] else []) ++ md023Go rest

/-- MD023 (headers must start at the beginning of the line). -/
def MD023 (p : Params) : List Nat :=
  md023Go (filterTokens p.tokens "heading_open" none)

/-- `forEachHeading` from the source, reified as the list of callback
arguments: each `inline` token seen while a heading is open pairs the open
token with the inline content. -/
def forEachHeadingCtx (heading : Option Tok) : List Tok → List (Tok × String)
  | [] => []
  | t :: rest =>
    if t.type == "heading_open" then forEachHeadingCtx (some t) rest
    else if t.type == "heading_close" then forEachHeadingCtx none rest
    else if t.type == "inline" then
      (match heading with
       | some h => [(h, t.content)]
       | none => []) ++ forEachHeadingCtx heading rest
    else forEachHeadingCtx heading rest

/-- MD024's loop, threading the list of known heading contents. -/
def md024Go (known : List String) : List (Tok × String) → List Nat
  | [] => []
  | hc :: rest =>
    if known.contains hc.2 then hc.1.lineNumber :: md024Go known rest
    else md024Go (known ++ [hc.2]) rest

/-- MD024 (multiple headers with the same content). -/
def MD024 (p : Params) : List Nat :=
  md024Go [] (forEachHeadingCtx none p.tokens)

/-- MD026's per-heading test, the regex `[punctuation]$`: the content's last
character belongs to the configured punctuation set (the class is modelled as
literal membership; the default `.,;:!?` contains no ranges). -/
def md026Go (punct : String) : List (Tok × String) → List Nat
  | [] => []
  | hc :: rest =>
    (if (match hc.2.data.getLast? with
         | some c => punct.data.contains c
         | none => false)
     then [hc.1.lineNumber] else []) ++ md026Go punct rest

/-- MD026 (trailing punctuation in header). -/
def MD026 (p : Params) : List Nat :=
  md026Go (jsOrStr p.options.punctuation ".,;:!?") (forEachHeadingCtx none p.tokens)

/-- MD027's loop over an inline token's content lines: a line with leading
whitespace flags, and the first line also flags when the token's raw line
matches `^\s*>\s\s`. -/
def md027Inline (tline : String) (tln : Nat) (offset : Nat) : List String → List Nat
  | [] => []
  | l :: rest =>
    (if startsWithSpace l || (offset == 0 && blockquoteSpaceRe tline)
     then [tln + offset] else []) ++
    md027Inline tline tln (offset + 1) rest

/-- MD027's token loop, threading `inBlockquote`. -/
def md027Go (inBq : Bool) : List Tok → List Nat
  | [] => []
  | t :: rest =>
    if t.type == "blockquote_open" then md027Go true rest
    else if t.type == "blockquote_close" then md027Go false rest
    else if t.type == "inline" && inBq then
      md027Inline t.line t.lineNumber 0 (splitNewlines t.content) ++ md027Go inBq rest
    else md027Go inBq rest

/-- MD027 (multiple spaces after blockquote symbol). -/
def MD027 (p : Params) : List Nat :=
  md027Go false p.tokens

/-- MD028's loop, threading whether the previous token was a
`blockquote_close` (the initial `{}` sentinel is not). -/
def md028Go (prevClose : Bool) : List Tok → List Nat
  | [] => []
  | t :: rest =>
    (if t.type == "blockquote_open" && prevClose then [t.lineNumber - 1] else []) ++
    md028Go (t.type == "blockquote_close") rest

/-- MD028 (blank line inside blockquote). -/
def MD028 (p : Params) : List Nat :=
  md028Go false p.tokens

/-- MD029's loop over one ordered list's items, threading the expected number
(incremented only under the `ordered` style). -/
def md029Items (style : String) (number : Nat) : List Tok → List Nat
  | [] => []
  | it :: rest =>
    (if !(md029Marker number it.line) then [it.lineNumber] else []) ++
    md029Items style (if style == "ordered" then number + 1 else number) rest

/-- MD029's loop over the flattened ordered lists. -/
def md029Go (style : String) : List LD → List Nat
  | [] => []
  | l :: rest => md029Items style 1 l.items ++ md029Go style rest

/-- MD029 (ordered list item prefix). -/
def MD029 (p : Params) : Option (List Nat) :=
  (flattenLists p.tokens (some true)).map (md029Go (jsOrStr p.options.style "one"))

/-- Token constructor shorthand: type, line range, source line, 1-indexed line
number, heading level, inline content; no child spans. -/
def mkTok (type : String) (lines : Option (Nat × Nat)) (line : String)
    (lineNumber hLevel : Nat) (content : String) : Tok :=
  ⟨type, lines, line, lineNumber, hLevel, content, []⟩

/-- A list whose open/close pair encloses no `list_item_open`: the degenerate
"zero items" descriptor named by the spec. -/
def itemlessListTokens : List Tok :=
  [mkTok "paragraph_open" (some (0, 1)) "text" 1 0 "",
   mkTok "inline" (some (0, 1)) "text" 1 0 "text",
   mkTok "paragraph_close" none "" 0 0 "",
   mkTok "bullet_list_open" (some (1, 2)) "" 2 0 "",
   mkTok "bullet_list_close" none "" 0 0 ""]

/-- Parameters containing the itemless list. -/
def itemlessListParams : Params :=
  ⟨["text", ""], itemlessListTokens, noOptions⟩

/-- A one-item list whose item line `"-item"` has no whitespace after its
marker: the second degenerate input named by the spec. -/
def noSpaceMarkerParams : Params :=
  ⟨["-item"],
   [mkTok "bullet_list_open" (some (0, 1)) "-item" 1 0 "",
    mkTok "list_item_open" (some (0, 1)) "-item" 1 0 "",
    mkTok "inline" (some (0, 1)) "-item" 1 0 "item",
    mkTok "bullet_list_close" none "" 0 0 ""],
   noOptions⟩

/-- A heading with no inline body between open and close. -/
def bodylessHeadingParams : Params :=
  ⟨["# A"],
   [mkTok "heading_open" (some (0, 1)) "# A" 1 1 "",
    mkTok "heading_close" none "" 0 1 ""],
   noOptions⟩

/-- Document `text / ~~~ / (blank) / ~~~`: an opening fence whose previous line
is nonempty but whose next line is empty. -/
def fenceDocParams : Params :=
  ⟨["text", "~~~", "", "~~~"], [], noOptions⟩

/-- Tokens of the document `text / # ---`: a paragraph followed, with no blank
line, by a heading whose inline content is the underline-like text `---`. -/
def dashHeadingParams : Params :=
  ⟨["text", "# ---"],
   [mkTok "paragraph_open" (some (0, 1)) "text" 1 0 "",
    mkTok "inline" (some (0, 1)) "text" 1 0 "text",
    mkTok "paragraph_close" none "" 0 0 "",
    mkTok "heading_open" (some (1, 2)) "# ---" 2 1 "",
    mkTok "inline" (some (1, 2)) "# ---" 2 0 "---",
    mkTok "heading_close" none "" 0 0 ""],
   noOptions⟩

/-- Tokens of `# A / # B`: two adjacent headings, neither surrounded by blanks. -/
def twoHeadingsParams : Params :=
  ⟨["# A", "# B"],
   [mkTok "heading_open" (some (0, 1)) "# A" 1 1 "",
    mkTok "inline" (some (0, 1)) "# A" 1 0 "A",
    mkTok "heading_close" none "" 0 0 "",
    mkTok "heading_open" (some (1, 2)) "# B" 2 1 "",
    mkTok "inline" (some (1, 2)) "# B" 2 0 "B",
    mkTok "heading_close" none "" 0 0 ""],
   noOptions⟩

/-- A single 81-character line containing no whitespace at all. -/
def longPlainLine : String :=
  String.mk (List.replicate 81 'a')

/-- Parameters whose only line is 81 non-whitespace characters. -/
def longLineParams : Params :=
  ⟨[longPlainLine], [], noOptions⟩

/-- Tokens of `## A / (blank) / # B`: the document's first heading is a level-2
heading, and a level-1 heading follows on line 3. -/
def lateH1Params : Params :=
  ⟨["## A", "", "# B"],
   [mkTok "heading_open" (some (0, 1)) "## A" 1 2 "",
    mkTok "inline" (some (0, 1)) "## A" 1 0 "A",
    mkTok "heading_close" none "" 0 0 "",
    mkTok "heading_open" (some (2, 3)) "# B" 3 1 "",
    mkTok "inline" (some (2, 3)) "# B" 3 0 "B",
    mkTok "heading_close" none "" 0 0 ""],
   noOptions⟩

/-- Tokens of `# A / (blank) / # B`: a line-1 level-1 heading followed by a
second level-1 heading on line 3. -/
def twoH1Params : Params :=
  ⟨["# A", "", "# B"],
   [mkTok "heading_open" (some (0, 1)) "# A" 1 1 "",
    mkTok "inline" (some (0, 1)) "# A" 1 0 "A",
    mkTok "heading_close" none "" 0 0 "",
    mkTok "heading_open" (some (2, 3)) "# B" 3 1 "",
    mkTok "inline" (some (2, 3)) "# B" 3 0 "B",
    mkTok "heading_close" none "" 0 0 ""],
   noOptions⟩

/-- A 13-line tokenless document whose lines 10, 11 and 12 (1-indexed) are
blank and whose lines 9 and 13 are not. -/
def threeBlanksParams : Params :=
  ⟨["a1", "a2", "a3", "a4", "a5", "a6", "a7", "a8", "a9", "", "", "", "a13"],
   [], noOptions⟩

/-- Tokens of a bullet list whose first item contains a nested ordered list. -/
def nestedListTokens : List Tok :=
  [mkTok "bullet_list_open" (some (0, 3)) "- a" 1 0 "",
   mkTok "list_item_open" (some (0, 3)) "- a" 1 0 "",
   mkTok "paragraph_open" (some (0, 1)) "- a" 1 0 "",
   mkTok "inline" (some (0, 1)) "- a" 1 0 "a",
   mkTok "paragraph_close" none "" 0 0 "",
   mkTok "ordered_list_open" (some (1, 3)) "  1. b" 2 0 "",
   mkTok "list_item_open" (some (1, 2)) "  1. b" 2 0 "",
   mkTok "inline" (some (1, 2)) "  1. b" 2 0 "b",
   mkTok "ordered_list_close" none "" 0 0 "",
   mkTok "list_item_close" none "" 0 0 "",
   mkTok "bullet_list_close" none "" 0 0 ""]

/-- A line that is parsed as paragraph text, not as a heading. -/
def hashtagParams : Params :=
  ⟨["#hashtag"], [], noOptions⟩

/-- One step of the fence toggle: flip the state on a fence-delimiter line. -/
def fenceToggle (b : Bool) (l : String) : Bool :=
  if isFenceLine l then !b else b

/-- Number of fence-delimiter lines strictly before index `j`. -/
def fencesBefore (lines : List String) (j : Nat) : Nat :=
  (lines.take j).countP isFenceLine

/-- The classification `forEachLine` computes for line `j`: the fence-toggle
state after processing lines `0..j` (an odd count of fence lines among them),
or membership in the indented code-block line set. -/
def inCodeAt (cl : List Nat) (lines : List String) (j : Nat) : Bool :=
  fencesBefore lines (j + 1) % 2 == 1 || cl.contains j

/-- Length of a line measured up to and including its last whitespace
character (0 when the line has none): the line's length with its trailing run
of non-whitespace removed. -/
def lengthUpToLastSpace : List Char → Nat
  | [] => 0
  | c :: rest =>
    if lengthUpToLastSpace rest == 0 then (if jsSpace c then 1 else 0)
    else lengthUpToLastSpace rest + 1

/-- The level-1 `heading_open` tokens, in token order. -/
def h1Tokens (tokens : List Tok) : List Tok :=
  (filterTokens tokens "heading_open" none).filter (fun t => t.hLevel == 1)

/-- Written from the claim's words (C2), for comparison with MD031: a fence
line flags exactly when its adjacent line is non-empty, the adjacent line
being the next line for an opening fence and the previous line for a closing
fence; a fence line is an opening fence when an even number of fence lines
precede it. -/
def md031ClaimFlags (lines : List String) (j : Nat) : Bool :=
  isFenceLine (lines.getD j "") &&
  (if fencesBefore lines j % 2 == 0
   then !((lines.getD (j + 1) "").length == 0)
   else !((lines.getD (j - 1) "").length == 0))

/-- Written from the claim's words (C7), for comparison with MD025: flag each
level-1 heading that is not the very first heading of the document and is not
itself on line 1. -/
def md025ClaimFlags (tokens : List Tok) : List Nat :=
  ((filterTokens tokens "heading_open" none).enum).filterMap fun kt =>
    if kt.2.hLevel == 1 && !(kt.1 == 0) && !(kt.2.lineNumber == 1)
    then some kt.2.lineNumber else none

/-- C1 (amended): every rule in the catalog completes with an empty result on
the empty document (under every configuration), on a document containing a
flattened list descriptor with zero items (under every configuration — all
rules except MD004 with its style still `consistent` and MD005, which throw on
that descriptor's missing first item), and on a document whose heading has no
inline body (under the default configuration); MD030 in particular survives
the zero-item list, but throws on a list item line with no whitespace after
its marker. -/
theorem C1_degenerate_inputs_amended :
    (∀ o : Options,
      MD001 ⟨[], [], o⟩ = [] ∧ MD002 ⟨[], [], o⟩ = [] ∧
      MD003 ⟨[], [], o⟩ = some [] ∧ MD004 ⟨[], [], o⟩ = some [] ∧
      MD005 ⟨[], [], o⟩ = some [] ∧ MD006 ⟨[], [], o⟩ = some [] ∧
      MD007 ⟨[], [], o⟩ = some [] ∧ MD009 ⟨[], [], o⟩ = [] ∧
      MD010 ⟨[], [], o⟩ = [] ∧ MD011 ⟨[], [], o⟩ = [] ∧
      MD012 ⟨[], [], o⟩ = some [] ∧ MD013 ⟨[], [], o⟩ = [] ∧
      MD014 ⟨[], [], o⟩ = [] ∧ MD018 ⟨[], [], o⟩ = some [] ∧
      MD019 ⟨[], [], o⟩ = some [] ∧ MD020 ⟨[], [], o⟩ = some [] ∧
      MD021 ⟨[], [], o⟩ = some [] ∧ MD022 ⟨[], [], o⟩ = some [] ∧
      MD023 ⟨[], [], o⟩ = [] ∧ MD024 ⟨[], [], o⟩ = [] ∧
      MD025 ⟨[], [], o⟩ = [] ∧ MD026 ⟨[], [], o⟩ = [] ∧
      MD027 ⟨[], [], o⟩ = [] ∧ MD028 ⟨[], [], o⟩ = [] ∧
      MD029 ⟨[], [], o⟩ = some [] ∧ MD030 ⟨[], [], o⟩ = some [] ∧
      MD031 ⟨[], [], o⟩ = some [] ∧ MD032 ⟨[], [], o⟩ = some []) ∧
    (∀ o : Options,
      MD001 ⟨["text", ""], itemlessListTokens, o⟩ = [] ∧
      MD002 ⟨["text", ""], itemlessListTokens, o⟩ = [] ∧
      MD003 ⟨["text", ""], itemlessListTokens, o⟩ = some [] ∧
      MD006 ⟨["text", ""], itemlessListTokens, o⟩ = some [] ∧
      MD007 ⟨["text", ""], itemlessListTokens, o⟩ = some [] ∧
      MD009 ⟨["text", ""], itemlessListTokens, o⟩ = [] ∧
      MD010 ⟨["text", ""], itemlessListTokens, o⟩ = [] ∧
      MD011 ⟨["text", ""], itemlessListTokens, o⟩ = [] ∧
      MD012 ⟨["text", ""], itemlessListTokens, o⟩ = some [] ∧
      MD013 ⟨["text", ""], itemlessListTokens, o⟩ = [] ∧
      MD014 ⟨["text", ""], itemlessListTokens, o⟩ = [] ∧
      MD018 ⟨["text", ""], itemlessListTokens, o⟩ = some [] ∧
      MD019 ⟨["text", ""], itemlessListTokens, o⟩ = some [] ∧
      MD020 ⟨["text", ""], itemlessListTokens, o⟩ = some [] ∧
      MD021 ⟨["text", ""], itemlessListTokens, o⟩ = some [] ∧
      MD022 ⟨["text", ""], itemlessListTokens, o⟩ = some [] ∧
      MD023 ⟨["text", ""], itemlessListTokens, o⟩ = [] ∧
      MD024 ⟨["text", ""], itemlessListTokens, o⟩ = [] ∧
      MD025 ⟨["text", ""], itemlessListTokens, o⟩ = [] ∧
      MD026 ⟨["text", ""], itemlessListTokens, o⟩ = [] ∧
      MD027 ⟨["text", ""], itemlessListTokens, o⟩ = [] ∧
      MD028 ⟨["text", ""], itemlessListTokens, o⟩ = [] ∧
      MD029 ⟨["text", ""], itemlessListTokens, o⟩ = some [] ∧
      MD030 ⟨["text", ""], itemlessListTokens, o⟩ = some [] ∧
      MD031 ⟨["text", ""], itemlessListTokens, o⟩ = some [] ∧
      MD032 ⟨["text", ""], itemlessListTokens, o⟩ = some []) ∧
    (MD001 bodylessHeadingParams = [] ∧ MD002 bodylessHeadingParams = [] ∧
     MD003 bodylessHeadingParams = some [] ∧ MD004 bodylessHeadingParams = some [] ∧
     MD005 bodylessHeadingParams = some [] ∧ MD006 bodylessHeadingParams = some [] ∧
     MD007 bodylessHeadingParams = some [] ∧ MD009 bodylessHeadingParams = [] ∧
     MD010 bodylessHeadingParams = [] ∧ MD011 bodylessHeadingParams = [] ∧
     MD012 bodylessHeadingParams = some [] ∧ MD013 bodylessHeadingParams = [] ∧
     MD014 bodylessHeadingParams = [] ∧ MD018 bodylessHeadingParams = some [] ∧
     MD019 bodylessHeadingParams = some [] ∧ MD020 bodylessHeadingParams = some [] ∧
     MD021 bodylessHeadingParams = some [] ∧ MD022 bodylessHeadingParams = some [] ∧
     MD023 bodylessHeadingParams = [] ∧ MD024 bodylessHeadingParams = [] ∧
     MD025 bodylessHeadingParams = [] ∧ MD026 bodylessHeadingParams = [] ∧
     MD027 bodylessHeadingParams = [] ∧ MD028 bodylessHeadingParams = [] ∧
     MD029 bodylessHeadingParams = some [] ∧ MD030 bodylessHeadingParams = some [] ∧
     MD031 bodylessHeadingParams = some [] ∧ MD032 bodylessHeadingParams = some []) ∧
    MD004 itemlessListParams = none ∧
    MD005 itemlessListParams = none ∧
    MD030 noSpaceMarkerParams = none :=
  ⟨fun _ => ⟨rfl, rfl, rfl, rfl, rfl, rfl, rfl, rfl, rfl, rfl, rfl, rfl, rfl, rfl,
     rfl, rfl, rfl, rfl, rfl, rfl, rfl, rfl, rfl, rfl, rfl, rfl, rfl, rfl⟩,
   fun _ => ⟨rfl, rfl, rfl, rfl, rfl, rfl, rfl, rfl, rfl, rfl, rfl, rfl, rfl,
     rfl, rfl, rfl, rfl, rfl, rfl, rfl, rfl, rfl, rfl, rfl, rfl, rfl⟩,
   by decide, by decide, by decide, by decide⟩

/-- C1 (counterexample): MD005, applied to a document containing a flattened
list descriptor with zero items — one of the degenerate inputs the claim names
— throws a TypeError (modelled `none`) instead of completing with an empty
result. -/
theorem C1_counterexample : MD005 itemlessListParams = none := by
  decide

/-- C2 (counterexample): in the document `text / ~~~ / (blank) / ~~~`, line 2
is an opening fence; the claim says an opening fence examines the next line
(blank here, so no flag), yet MD031 flags line 2, because the code examines
the previous line for an opening fence. -/
theorem C2_counterexample :
    MD031 fenceDocParams = some [2] ∧
    md031ClaimFlags fenceDocParams.lines 1 = false := by
  decide

/-- C4 (counterexample): on the document `text / # ---`, MD022 reports the
line numbers `[2, 1]` — the setext-underline check pushes the 0-indexed line 1
after the heading check pushed line 2 — so the sequence a rule produces is not
always ascending. -/
theorem C4_counterexample :
    MD022 dashHeadingParams = some [2, 1] ∧ ¬ List.Sorted (· ≤ ·) [2, 1] := by
  constructor
  · decide
  · intro h
    exact absurd (List.rel_of_sorted_cons h 1 (by simp)) (by decide)

/-- C6 (counterexample): an 81-character line with no whitespace exceeds the
default threshold of 80, yet MD013 does not flag it, because its regex demands
a whitespace character at or beyond the threshold column. -/
theorem C6_counterexample :
    MD013 longLineParams = [] ∧ 80 < longPlainLine.length := by
  decide

/-- C7 (counterexample): in `## A / (blank) / # B` the level-1 heading on line
3 is neither the document's first heading nor on line 1, so the claim flags it,
yet MD025 reports nothing: the code only arms after a level-1 heading whose
line number is 1. -/
theorem C7_counterexample :
    MD025 lateH1Params = [] ∧ md025ClaimFlags lateH1Params.tokens = [3] := by
  decide

/-- C8 (counterexample): with lines 10-12 blank and lines 9 and 13 non-blank,
MD012 flags lines 11 and 12 — the second of each adjacent blank pair — not
only line 12 as the claim states. -/
theorem C8_counterexample :
    MD012 threeBlanksParams = some [11, 12] ∧
    ¬ MD012 threeBlanksParams = some [12] := by
  decide

/-- C9: a numeric option explicitly configured as 0 is falsy to the `||`
defaulting idiom, so it behaves exactly as an absent option and hence as the
documented default: MD013 with `line_length = 0` equals `line_length` absent
and `line_length = 80`; MD007 with `indent = 0` equals absent and `indent =
2`; MD030 with any one spacing option 0 equals that option absent and set
to 1. -/
theorem C9_zero_numeric_option_defaults :
    (∀ (lines : List String) (tokens : List Tok) (sty pu : Option String)
        (ind uls ols ulm olm : Option Nat),
      MD013 ⟨lines, tokens, ⟨sty, ind, some 0, uls, ols, ulm, olm, pu⟩⟩ =
        MD013 ⟨lines, tokens, ⟨sty, ind, none, uls, ols, ulm, olm, pu⟩⟩ ∧
      MD013 ⟨lines, tokens, ⟨sty, ind, some 0, uls, ols, ulm, olm, pu⟩⟩ =
        MD013 ⟨lines, tokens, ⟨sty, ind, some 80, uls, ols, ulm, olm, pu⟩⟩) ∧
    (∀ (lines : List String) (tokens : List Tok) (sty pu : Option String)
        (ll uls ols ulm olm : Option Nat),
      MD007 ⟨lines, tokens, ⟨sty, some 0, ll, uls, ols, ulm, olm, pu⟩⟩ =
        MD007 ⟨lines, tokens, ⟨sty, none, ll, uls, ols, ulm, olm, pu⟩⟩ ∧
      MD007 ⟨lines, tokens, ⟨sty, some 0, ll, uls, ols, ulm, olm, pu⟩⟩ =
        MD007 ⟨lines, tokens, ⟨sty, some 2, ll, uls, ols, ulm, olm, pu⟩⟩) ∧
    (∀ (lines : List String) (tokens : List Tok) (sty pu : Option String)
        (ind ll x y z : Option Nat),
      (MD030 ⟨lines, tokens, ⟨sty, ind, ll, some 0, x, y, z, pu⟩⟩ =
         MD030 ⟨lines, tokens, ⟨sty, ind, ll, none, x, y, z, pu⟩⟩ ∧
       MD030 ⟨lines, tokens, ⟨sty, ind, ll, some 0, x, y, z, pu⟩⟩ =
         MD030 ⟨lines, tokens, ⟨sty, ind, ll, some 1, x, y, z, pu⟩⟩) ∧
      (MD030 ⟨lines, tokens, ⟨sty, ind, ll, x, some 0, y, z, pu⟩⟩ =
         MD030 ⟨lines, tokens, ⟨sty, ind, ll, x, none, y, z, pu⟩⟩ ∧
       MD030 ⟨lines, tokens, ⟨sty, ind, ll, x, some 0, y, z, pu⟩⟩ =
         MD030 ⟨lines, tokens, ⟨sty, ind, ll, x, some 1, y, z, pu⟩⟩) ∧
      (MD030 ⟨lines, tokens, ⟨sty, ind, ll, x, y, some 0, z, pu⟩⟩ =
         MD030 ⟨lines, tokens, ⟨sty, ind, ll, x, y, none, z, pu⟩⟩ ∧
       MD030 ⟨lines, tokens, ⟨sty, ind, ll, x, y, some 0, z, pu⟩⟩ =
         MD030 ⟨lines, tokens, ⟨sty, ind, ll, x, y, some 1, z, pu⟩⟩) ∧
      (MD030 ⟨lines, tokens, ⟨sty, ind, ll, x, y, z, some 0, pu⟩⟩ =
         MD030 ⟨lines, tokens, ⟨sty, ind, ll, x, y, z, none, pu⟩⟩ ∧
       MD030 ⟨lines, tokens, ⟨sty, ind, ll, x, y, z, some 0, pu⟩⟩ =
         MD030 ⟨lines, tokens, ⟨sty, ind, ll, x, y, z, some 1, pu⟩⟩)) :=
  ⟨fun _ _ _ _ _ _ _ _ _ => ⟨rfl, rfl⟩,
   fun _ _ _ _ _ _ _ _ _ => ⟨rfl, rfl⟩,
   fun _ _ _ _ _ _ _ _ _ => ⟨⟨rfl, rfl⟩, ⟨rfl, rfl⟩, ⟨rfl, rfl⟩, ⟨rfl, rfl⟩⟩⟩

theorem mem_if_singleton {b : Bool} {x m : Nat} :
    m ∈ (if b then [x] else ([] : List Nat)) ↔ b = true ∧ m = x := by
  cases b <;> simp

theorem foldl_fenceToggle_parity :
    ∀ (ls : List String) (f : Bool),
    ls.foldl fenceToggle f = (f ^^ (ls.countP isFenceLine % 2 == 1)) := by
  intro ls
  induction ls with
  | nil => intro f; simp
  | cons l rest ih =>
    intro f
    rw [List.foldl_cons, ih]
    rcases Nat.mod_two_eq_zero_or_one (rest.countP isFenceLine) with h | h <;>
      cases hf : isFenceLine l <;>
      simp [fenceToggle, List.countP_cons, hf, Nat.add_mod, h]

theorem scanLines_length (cl : List Nat) :
    ∀ (ls : List String) (f : Bool) (i : Nat),
    (scanLines cl f i ls).length = ls.length := by
  intro ls
  induction ls with
  | nil => intro f i; simp [scanLines]
  | cons l rest ih => intro f i; simp [scanLines, ih]

theorem scanLines_get (cl : List Nat) :
    ∀ (ls : List String) (f : Bool) (i j : Nat) (c : Ctx),
    (scanLines cl f i ls)[j]? = some c →
    ∃ l, ls[j]? = some l ∧ c.line = l ∧ c.idx = i + j ∧ c.onFence = isFenceLine l ∧
      c.inCode = ((ls.take (j + 1)).foldl fenceToggle f || cl.contains (i + j)) := by
  intro ls
  induction ls with
  | nil => intro f i j c h; simp [scanLines] at h
  | cons l rest ih =>
    intro f i j c h
    match j with
    | 0 =>
      simp only [scanLines, List.getElem?_cons_zero, Option.some.injEq] at h
      refine ⟨l, by simp, ?_, ?_, ?_, ?_⟩ <;>
        simp [← h, List.take_succ_cons, List.foldl_cons, fenceToggle]
    | j' + 1 =>
      simp only [scanLines, List.getElem?_cons_succ] at h
      obtain ⟨l', hget, hline, hidx, hfen, hic⟩ := ih _ (i + 1) j' c h
      refine ⟨l', by simpa using hget, hline, by omega, hfen, ?_⟩
      rw [hic]
      have : i + 1 + j' = i + (j' + 1) := by omega
      rw [this, List.take_succ_cons, List.foldl_cons]
      rfl

theorem forEachLineCtx_get (p : Params) (cl : List Nat) (ctxs : List Ctx)
    (hcl : codeLinesOf p.tokens = some cl)
    (hctx : forEachLineCtx p = some ctxs) :
    ctxs.length = p.lines.length ∧
    ∀ j c, ctxs[j]? = some c →
      ∃ l, p.lines[j]? = some l ∧ c.line = l ∧ c.idx = j ∧
        c.onFence = isFenceLine l ∧ c.inCode = inCodeAt cl p.lines j := by
  have hs : ctxs = scanLines cl false 0 p.lines := by
    unfold forEachLineCtx at hctx
    rw [hcl] at hctx
    simpa using hctx.symm
  subst hs
  refine ⟨scanLines_length cl p.lines false 0, ?_⟩
  intro j c h
  obtain ⟨l, hget, hline, hidx, hfen, hic⟩ := scanLines_get cl p.lines false 0 j c h
  refine ⟨l, hget, hline, by omega, hfen, ?_⟩
  rw [hic, foldl_fenceToggle_parity]
  simp [inCodeAt, fencesBefore]

/-- C3: the single-pass line classification applies a line's own fence toggle
before classifying it, so a fence-opening delimiter line (an even number of
fence lines precede it) is classified inside-code, and a fence-closing
delimiter line (odd count precedes it) is classified not-inside-code unless
an indented code-block token covers its index. -/
theorem C3_fence_toggle_applied_before_classify
    (p : Params) (cl : List Nat) (ctxs : List Ctx) (j : Nat) (c : Ctx)
    (hcl : codeLinesOf p.tokens = some cl)
    (hctx : forEachLineCtx p = some ctxs)
    (hc : ctxs[j]? = some c)
    (hf : c.onFence = true) :
    (fencesBefore p.lines j % 2 = 0 → c.inCode = true) ∧
    (fencesBefore p.lines j % 2 = 1 → c.inCode = cl.contains j) := by
  obtain ⟨l, hget, hline, hidx, hfen, hic⟩ := (forEachLineCtx_get p cl ctxs hcl hctx).2 j c hc
  have hfl : isFenceLine l = true := by rw [← hfen]; exact hf
  have hstep : fencesBefore p.lines (j + 1) = fencesBefore p.lines j + 1 := by
    unfold fencesBefore
    rw [List.take_succ, List.countP_append]
    simp [hget, List.countP_cons, hfl]
  rw [hic]
  unfold inCodeAt
  rw [hstep]
  constructor
  · intro h
    have : (fencesBefore p.lines j + 1) % 2 = 1 := by omega
    simp [this]
  · intro h
    have : (fencesBefore p.lines j + 1) % 2 = 0 := by omega
    simp [this]

/-- Witness for C3 at the document `text / ~~~ / (blank) / ~~~`: line index 1
is an opening fence and is classified inside-code; line index 3 is a closing
fence and is classified not-inside-code. -/
theorem C3_witness :
    (⟨"~~~", 1, true, true⟩ : Ctx).inCode = true ∧
    (⟨"~~~", 3, false, true⟩ : Ctx).inCode = ([] : List Nat).contains 3 := by
  constructor
  · exact (C3_fence_toggle_applied_before_classify fenceDocParams []
      [⟨"text", 0, false, false⟩, ⟨"~~~", 1, true, true⟩,
       ⟨"", 2, true, false⟩, ⟨"~~~", 3, false, true⟩]
      1 ⟨"~~~", 1, true, true⟩ rfl rfl rfl rfl).1 (by decide)
  · exact (C3_fence_toggle_applied_before_classify fenceDocParams []
      [⟨"text", 0, false, false⟩, ⟨"~~~", 1, true, true⟩,
       ⟨"", 2, true, false⟩, ⟨"~~~", 3, false, true⟩]
      3 ⟨"~~~", 3, false, true⟩ rfl rfl rfl rfl).2 (by decide)

theorem md031Go_mem (lines : List String) :
    ∀ (ctxs : List Ctx) (m : Nat),
    m ∈ md031Go lines ctxs ↔ ∃ c ∈ ctxs, md031Cond lines c = true ∧ m = c.idx + 1 := by
  intro ctxs
  induction ctxs with
  | nil => intro m; simp [md031Go]
  | cons c rest ih =>
    intro m
    simp only [md031Go, List.mem_append, mem_if_singleton, ih]
    constructor
    · rintro (⟨hcond, hm⟩ | ⟨c', hc', hcond, hm⟩)
      · exact ⟨c, by simp, hcond, hm⟩
      · exact ⟨c', by simp [hc'], hcond, hm⟩
    · rintro ⟨c', hc', hcond, hm⟩
      rcases List.mem_cons.mp hc' with h | h
      · exact Or.inl ⟨h ▸ hcond, h ▸ hm⟩
      · exact Or.inr ⟨c', h, hcond, hm⟩

/-- C2 (amended): MD031 flags a fence-delimiter line (not covered by an
indented code-block token) exactly when its adjacent line exists and is
non-empty, where the adjacent line examined is the PREVIOUS line if the fence
is an opening fence (an even number of fence lines precede it) and the NEXT
line if it is a closing fence — the reverse of the claimed orientation. -/
theorem C2_fenced_code_blank_lines_amended
    (p : Params) (cl : List Nat) (out : List Nat) (j : Nat)
    (hcl : codeLinesOf p.tokens = some cl)
    (hnc : ∀ k l, p.lines[k]? = some l → isFenceLine l = true → cl.contains k = false)
    (hout : MD031 p = some out)
    (hj : j < p.lines.length) :
    ((j + 1) ∈ out ↔
      isFenceLine (p.lines.getD j "") = true ∧
      (if fencesBefore p.lines j % 2 = 0
       then 1 ≤ j ∧ (p.lines.getD (j - 1) "").length ≠ 0
       else j + 1 < p.lines.length ∧ (p.lines.getD (j + 1) "").length ≠ 0)) := by
  have hctx : forEachLineCtx p = some (scanLines cl false 0 p.lines) := by
    unfold forEachLineCtx; rw [hcl]; rfl
  have hout' : out = md031Go p.lines (scanLines cl false 0 p.lines) := by
    unfold MD031 at hout; rw [hctx] at hout; simpa using hout.symm
  have hjs : j < (scanLines cl false 0 p.lines).length := by
    rw [scanLines_length]; exact hj
  have hcj : (scanLines cl false 0 p.lines)[j]? =
      some ((scanLines cl false 0 p.lines)[j]) := List.getElem?_eq_getElem hjs
  set c := (scanLines cl false 0 p.lines)[j] with hcdef
  obtain ⟨l, hget, hline, hidx, hfen, hic⟩ := scanLines_get cl p.lines false 0 j c hcj
  have hgd : p.lines.getD j "" = l := by rw [List.getD_eq_getElem?_getD, hget]; rfl
  have hmem : (j + 1) ∈ out ↔ md031Cond p.lines c = true := by
    rw [hout', md031Go_mem]
    constructor
    · rintro ⟨c', hc', hcond, hm⟩
      obtain ⟨k, hk⟩ := List.mem_iff_getElem?.mp hc'
      obtain ⟨l', _, _, hidx', _, _⟩ := scanLines_get cl p.lines false 0 k c' hk
      have hkj : k = j := by omega
      subst hkj
      have : c' = c := by
        have := hk.symm.trans hcj
        exact Option.some.inj this
      rwa [this] at hcond
    · intro hcond
      exact ⟨c, List.getElem?_mem hcj, hcond, by omega⟩
  rw [hmem]
  have hparity : (p.lines.take (j + 1)).foldl fenceToggle false
      = (fencesBefore p.lines (j + 1) % 2 == 1) := by
    rw [foldl_fenceToggle_parity]
    simp [fencesBefore]
  unfold md031Cond
  rw [hfen, hgd, hidx]
  by_cases hfl : isFenceLine l = true
  · have hcontains : cl.contains j = false := hnc j l hget hfl
    have hstep : fencesBefore p.lines (j + 1) = fencesBefore p.lines j + 1 := by
      unfold fencesBefore
      rw [List.take_succ, List.countP_append]
      simp [hget, List.countP_cons, hfl]
    have hic' : c.inCode = (fencesBefore p.lines j % 2 == 0) := by
      rw [hic, hparity, hstep]
      simp only [Nat.zero_add, hcontains, Bool.or_false]
      rcases Nat.mod_two_eq_zero_or_one (fencesBefore p.lines j) with h | h <;>
        simp [Nat.add_mod, h]
    rw [hic', hfl]
    rcases Nat.mod_two_eq_zero_or_one (fencesBefore p.lines j) with h | h <;>
      simp [h]
  · have : isFenceLine l = false := by
      cases h : isFenceLine l
      · rfl
      · exact absurd h hfl
    rw [this]
    simp

/-- Witness for C2 (amended) at `text / ~~~ / (blank) / ~~~`: the opening
fence on line 2 has a non-empty previous line and is flagged. -/
theorem C2_amended_witness :
    ∃ out, MD031 fenceDocParams = some out ∧ (2 : Nat) ∈ out := by
  refine ⟨[2], rfl, ?_⟩
  exact (C2_fenced_code_blank_lines_amended fenceDocParams [] [2] 1 rfl
    (by intro k l _ _; rfl) rfl (by decide)).mpr (by constructor <;> decide)

theorem md012Go_mem (cl : List Nat) :
    ∀ (ls : List String) (f : Bool) (i : Nat) (prev : String) (m : Nat),
    (m ∈ md012Go prev (scanLines cl f i ls) ↔
      ∃ j l, ls[j]? = some l ∧ m = i + j + 1 ∧
        ((ls.take (j + 1)).foldl fenceToggle f || cl.contains (i + j)) = false ∧
        jsTrim l = "" ∧
        (if j = 0 then prev else jsTrim (ls.getD (j - 1) "")) = "") := by
  intro ls
  induction ls with
  | nil => intro f i prev m; simp [scanLines, md012Go]
  | cons l rest ih =>
    intro f i prev m
    simp only [scanLines, md012Go, List.mem_append, mem_if_singleton]
    rw [ih]
    have hf' : (if isFenceLine l then !f else f) = fenceToggle f l := rfl
    simp only [hf']
    constructor
    · rintro (⟨hcond, hm⟩ | ⟨j, l', hget, hm, hic, htr, hpr⟩)
      · simp only [Bool.and_eq_true, Bool.not_eq_true', beq_iff_eq] at hcond
        refine ⟨0, l, by simp, by omega, ?_, hcond.1.2, by simpa using hcond.2⟩
        rw [List.take_succ_cons, List.take_zero, List.foldl_cons, List.foldl_nil]
        simpa using hcond.1.1
      · refine ⟨j + 1, l', by simpa using hget, by omega, ?_, htr, ?_⟩
        · rw [List.take_succ_cons, List.foldl_cons]
          have : i + (j + 1) = i + 1 + j := by omega
          rw [this]
          exact hic
        · simp only [Nat.add_sub_cancel, if_neg (Nat.succ_ne_zero j)]
          match j with
          | 0 => simpa [List.getD_cons_zero] using hpr
          | k + 1 => simpa [List.getD_cons_succ] using hpr
    · rintro ⟨j, l', hget, hm, hic, htr, hpr⟩
      match j with
      | 0 =>
        left
        simp only [List.getElem?_cons_zero, Option.some.injEq] at hget
        subst hget
        simp only [if_pos rfl] at hpr
        rw [List.take_succ_cons, List.take_zero, List.foldl_cons, List.foldl_nil] at hic
        refine ⟨?_, by omega⟩
        simp only [Bool.and_eq_true, Bool.not_eq_true', beq_iff_eq]
        exact ⟨⟨by simpa using hic, htr⟩, hpr⟩
      | j' + 1 =>
        right
        refine ⟨j', l', by simpa using hget, by omega, ?_, htr, ?_⟩
        · rw [List.take_succ_cons, List.foldl_cons] at hic
          have : i + 1 + j' = i + (j' + 1) := by omega
          rw [this]
          exact hic
        · simp only [Nat.add_sub_cancel, if_neg (Nat.succ_ne_zero j')] at hpr
          match j' with
          | 0 => simpa [List.getD_cons_zero] using hpr
          | k + 1 => simpa [List.getD_cons_succ] using hpr

/-- C8 (amended): when lines 10-12 (1-indexed) are blank, lines 9 and 13 are
not, and the blank lines sit outside code regions, MD012 flags both line 11
and line 12 — the second of each adjacent blank pair — and flags neither line
10 nor line 13. -/
theorem C8_multiple_blanks_amended
    (p : Params) (cl : List Nat) (out : List Nat)
    (l8 l9 l10 l11 l12 : String)
    (hcl : codeLinesOf p.tokens = some cl)
    (hout : MD012 p = some out)
    (h8 : p.lines[8]? = some l8) (h8b : ¬ jsTrim l8 = "")
    (h9 : p.lines[9]? = some l9) (h9b : jsTrim l9 = "")
    (h10 : p.lines[10]? = some l10) (h10b : jsTrim l10 = "")
    (h11 : p.lines[11]? = some l11) (h11b : jsTrim l11 = "")
    (h12 : p.lines[12]? = some l12) (h12b : ¬ jsTrim l12 = "")
    (hc10 : inCodeAt cl p.lines 10 = false)
    (hc11 : inCodeAt cl p.lines 11 = false) :
    11 ∈ out ∧ 12 ∈ out ∧ ¬ 10 ∈ out ∧ ¬ 13 ∈ out := by
  have hctx : forEachLineCtx p = some (scanLines cl false 0 p.lines) := by
    unfold forEachLineCtx; rw [hcl]; rfl
  have hout' : out = md012Go "-" (scanLines cl false 0 p.lines) := by
    unfold MD012 at hout; rw [hctx] at hout; simpa using hout.symm
  have hconv : ∀ j : Nat,
      ((p.lines.take (j + 1)).foldl fenceToggle false || cl.contains (0 + j))
        = inCodeAt cl p.lines j := by
    intro j
    rw [foldl_fenceToggle_parity]
    simp [inCodeAt, fencesBefore]
  have hgd9 : p.lines.getD 9 "" = l9 := by rw [List.getD_eq_getElem?_getD, h9]; rfl
  have hgd10 : p.lines.getD 10 "" = l10 := by rw [List.getD_eq_getElem?_getD, h10]; rfl
  have hgd8 : p.lines.getD 8 "" = l8 := by rw [List.getD_eq_getElem?_getD, h8]; rfl
  subst hout'
  refine ⟨?_, ?_, ?_, ?_⟩
  · exact (md012Go_mem cl p.lines false 0 "-" 11).mpr
      ⟨10, l10, h10, rfl, by rw [hconv]; exact hc10, h10b, by simp [List.getD, h9, h9b]⟩
  · exact (md012Go_mem cl p.lines false 0 "-" 12).mpr
      ⟨11, l11, h11, rfl, by rw [hconv]; exact hc11, h11b, by simp [List.getD, h10, h10b]⟩
  · intro hmem
    obtain ⟨j, l', hget, hm, _, _, hpr⟩ := (md012Go_mem cl p.lines false 0 "-" 10).mp hmem
    have hj : j = 9 := by omega
    subst hj
    simp only [if_neg (by omega : ¬ (9 : Nat) = 0)] at hpr
    rw [show (9 : Nat) - 1 = 8 from rfl, hgd8] at hpr
    exact h8b hpr
  · intro hmem
    obtain ⟨j, l', hget, hm, _, htr, _⟩ := (md012Go_mem cl p.lines false 0 "-" 13).mp hmem
    have hj : j = 12 := by omega
    subst hj
    rw [h12] at hget
    exact h12b (Option.some.inj hget ▸ htr)

/-- Witness for C8 (amended) at the 13-line document with blank lines 10-12:
MD012 reports 11 and 12 and neither 10 nor 13. -/
theorem C8_amended_witness :
    ∃ out, MD012 threeBlanksParams = some out ∧
      11 ∈ out ∧ 12 ∈ out ∧ ¬ 10 ∈ out ∧ ¬ 13 ∈ out := by
  refine ⟨[11, 12], rfl, ?_⟩
  exact C8_multiple_blanks_amended threeBlanksParams [] [11, 12]
    "a9" "" "" "" "a13" rfl rfl rfl (by decide) rfl (by decide) rfl (by decide)
    rfl (by decide) rfl (by decide) (by decide) (by decide)

theorem filterTokens_code_block (tokens : List Tok) :
    filterTokens tokens "code_block" none =
      tokens.filter (fun t => t.type == "code_block") := by
  unfold filterTokens
  congr 1
  funext t
  have h : (some t.type == (none : Option String)) = false := rfl
  rw [h, Bool.or_false]

theorem codeLinesOf_filterTokens (tokens : List Tok) :
    codeLinesOf (filterTokens tokens "code_block" none) = codeLinesOf tokens := by
  rw [filterTokens_code_block]
  induction tokens with
  | nil => rfl
  | cons t rest ih =>
    cases h : (t.type == "code_block")
    · simp [codeLinesOf, List.filter_cons, h, ih]
    · rcases hl : t.lines with _ | ⟨a, b⟩ <;>
        simp [codeLinesOf, List.filter_cons, h, hl, ih]

theorem md018Go_mem_of :
    ∀ (ctxs : List Ctx) (c : Ctx), c ∈ ctxs → c.inCode = false →
    md018Cond c.line = true → c.idx + 1 ∈ md018Go ctxs := by
  intro ctxs
  induction ctxs with
  | nil => intro c hc _ _; simp at hc
  | cons d rest ih =>
    intro c hc hic hcond
    rcases List.mem_cons.mp hc with h | h
    · subst h
      simp [md018Go, hic, hcond]
    · unfold md018Go
      exact List.mem_append_right _ (ih c h hic hcond)

/-- C10: MD018 and MD020 decide purely from raw line text and the code-region
classification, never from heading tokens: each rule's output is unchanged
when every token other than the `code_block` tokens is removed, and every line
classified outside code whose text starts with one or more hashes followed by
a character that is neither hash nor whitespace and that does not end in a
hash is flagged by MD018, whether or not any heading token covers it. -/
theorem C10_md018_md020_line_based
    : (∀ p : Params,
        MD018 p = MD018 ⟨p.lines, filterTokens p.tokens "code_block" none, p.options⟩) ∧
      (∀ p : Params,
        MD020 p = MD020 ⟨p.lines, filterTokens p.tokens "code_block" none, p.options⟩) ∧
      (∀ (p : Params) (ctxs : List Ctx) (c : Ctx) (out : List Nat),
        forEachLineCtx p = some ctxs → c ∈ ctxs → c.inCode = false →
        md018Cond c.line = true → MD018 p = some out → c.idx + 1 ∈ out) := by
  refine ⟨?_, ?_, ?_⟩
  · intro p
    unfold MD018 forEachLineCtx
    rw [codeLinesOf_filterTokens]
  · intro p
    unfold MD020 forEachLineCtx
    rw [codeLinesOf_filterTokens]
  · intro p ctxs c out hctx hc hic hcond hout
    unfold MD018 at hout
    rw [hctx] at hout
    have : out = md018Go ctxs := by simpa using hout.symm
    subst this
    exact md018Go_mem_of ctxs c hc hic hcond

/-- Witness for C10: the paragraph line `#hashtag`, with no heading token at
all, is flagged by MD018. -/
theorem C10_witness :
    ∃ out, MD018 hashtagParams = some out ∧ 1 ∈ out := by
  refine ⟨[1], rfl, ?_⟩
  exact C10_md018_md020_line_based.2.2 hashtagParams
    [⟨"#hashtag", 0, false, false⟩] ⟨"#hashtag", 0, false, false⟩ [1]
    rfl (by decide) rfl (by decide) rfl

theorem md013Go_mem (L : Nat) :
    ∀ (ls : List String) (i m : Nat),
    (m ∈ md013Go L i ls ↔
      ∃ j l, ls[j]? = some l ∧ m = i + j + 1 ∧ md013Flag L l = true) := by
  intro ls
  induction ls with
  | nil => intro i m; simp [md013Go]
  | cons l rest ih =>
    intro i m
    simp only [md013Go, List.mem_append, mem_if_singleton]
    rw [ih]
    constructor
    · rintro (⟨hflag, hm⟩ | ⟨j, l', hget, hm, hflag⟩)
      · exact ⟨0, l, by simp, by omega, hflag⟩
      · exact ⟨j + 1, l', by simpa using hget, by omega, hflag⟩
    · rintro ⟨j, l', hget, hm, hflag⟩
      match j with
      | 0 =>
        left
        simp only [List.getElem?_cons_zero, Option.some.injEq] at hget
        subst hget
        exact ⟨hflag, by omega⟩
      | j' + 1 =>
        right
        exact ⟨j', l', by simpa using hget, by omega, hflag⟩

theorem md013Flag_iff (L : Nat) (s : String)
    (hterm : s.data.all (fun c => !isLineTerm c) = true) :
    (md013Flag L s = true ↔
      ∃ j, L ≤ j ∧ ∃ c, s.data[j]? = some c ∧ jsSpace c = true) := by
  unfold md013Flag
  rw [List.any_eq_true]
  constructor
  · rintro ⟨j, hjr, hj⟩
    simp only [Bool.and_eq_true, decide_eq_true_eq] at hj
    obtain ⟨⟨hc, hL⟩, _⟩ := hj
    rcases hg : s.data[j]? with _ | c
    · rw [hg] at hc; exact absurd hc (by simp)
    · rw [hg] at hc; exact ⟨j, hL, c, hg, hc⟩
  · rintro ⟨j, hL, c, hget, hsp⟩
    have hlt : j < s.data.length := by
      by_contra hge
      rw [List.getElem?_eq_none (by omega)] at hget
      exact absurd hget (by simp)
    refine ⟨j, List.mem_range.mpr hlt, ?_⟩
    simp only [Bool.and_eq_true, decide_eq_true_eq]
    refine ⟨⟨by rw [hget]; exact hsp, hL⟩, ?_⟩
    rw [List.all_eq_true] at hterm ⊢
    intro c' hc'
    exact hterm c' (List.mem_of_mem_take hc')

theorem exists_space_iff_lengthUpToLastSpace :
    ∀ (cs : List Char) (L : Nat),
    ((∃ j, L ≤ j ∧ ∃ c, cs[j]? = some c ∧ jsSpace c = true) ↔
      L < lengthUpToLastSpace cs) := by
  intro cs
  induction cs with
  | nil => intro L; simp [lengthUpToLastSpace]
  | cons a t ih =>
    intro L
    have hsplit : (∃ j, L ≤ j ∧ ∃ c, (a :: t)[j]? = some c ∧ jsSpace c = true) ↔
        ((L = 0 ∧ jsSpace a = true) ∨
         ∃ k, L - 1 ≤ k ∧ ∃ c, t[k]? = some c ∧ jsSpace c = true) := by
      constructor
      · rintro ⟨j, hLj, c, hget, hsp⟩
        match j with
        | 0 =>
          left
          simp only [List.getElem?_cons_zero, Option.some.injEq] at hget
          exact ⟨by omega, hget ▸ hsp⟩
        | k + 1 =>
          right
          exact ⟨k, by omega, c, by simpa using hget, hsp⟩
      · rintro (⟨hL, hsp⟩ | ⟨k, hk, c, hget, hsp⟩)
        · exact ⟨0, by omega, a, by simp, hsp⟩
        · exact ⟨k + 1, by omega, c, by simpa using hget, hsp⟩
    rw [hsplit, ih (L - 1)]
    simp only [lengthUpToLastSpace]
    by_cases h0 : lengthUpToLastSpace t = 0
    · rw [h0]
      cases hsp : jsSpace a <;> simp [hsp]
    · rw [if_neg (by simpa using h0)]
      constructor
      · rintro (⟨hL, _⟩ | h) <;> omega
      · intro h; right; omega

/-- C6 (amended): MD013 flags exactly the lines containing a whitespace
character at 0-based index at least the configured threshold — equivalently,
the lines whose length measured up to and including the LAST whitespace (that
is, excluding the trailing run of non-whitespace) exceeds the threshold.  A
line longer than the threshold with no whitespace at or past the threshold
column is not flagged, so flagging is not determined by full line length. -/
theorem C6_line_length_amended
    (p : Params) (j : Nat) (l : String)
    (hget : p.lines[j]? = some l)
    (hterm : l.data.all (fun c => !isLineTerm c) = true) :
    ((j + 1) ∈ MD013 p ↔
      jsOrNat p.options.line_length 80 < lengthUpToLastSpace l.data) := by
  unfold MD013
  rw [md013Go_mem]
  constructor
  · rintro ⟨j', l', hget', hm, hflag⟩
    have hj : j' = j := by omega
    subst hj
    rw [hget] at hget'
    obtain rfl : l = l' := Option.some.inj hget'
    rw [← exists_space_iff_lengthUpToLastSpace]
    exact (md013Flag_iff _ _ hterm).mp hflag
  · intro h
    refine ⟨j, l, hget, by omega, ?_⟩
    exact (md013Flag_iff _ _ hterm).mpr
      ((exists_space_iff_lengthUpToLastSpace _ _).mpr h)

/-- Witness for C6 (amended): with threshold 3, the line `abc e` has a
whitespace at index 3 and its length up to the last whitespace is 4, so line 1
is flagged. -/
theorem C6_amended_witness :
    (1 : Nat) ∈ MD013 ⟨["abc e"], [], ⟨none, none, some 3, none, none, none, none, none⟩⟩ :=
  (C6_line_length_amended ⟨["abc e"], [], ⟨none, none, some 3, none, none, none, none, none⟩⟩
    0 "abc e" rfl (by decide)).mpr (by decide)

theorem md025Go_armed :
    ∀ hs : List Tok,
    md025Go true hs = (hs.filter (fun t => t.hLevel == 1)).map (·.lineNumber) := by
  intro hs
  induction hs with
  | nil => rfl
  | cons t rest ih =>
    cases hb : (t.hLevel == 1) <;> simp [md025Go, List.filter_cons, hb, ih]

theorem md025Go_unarmed :
    ∀ hs : List Tok, (∀ t ∈ hs, t.hLevel = 1 → t.lineNumber ≠ 1) →
    md025Go false hs = [] := by
  intro hs
  induction hs with
  | nil => intro _; rfl
  | cons t rest ih =>
    intro h
    cases hb : (t.hLevel == 1)
    · simp only [md025Go, hb, Bool.false_eq_true, if_false]
      exact ih fun u hu => h u (List.mem_cons_of_mem _ hu)
    · have hl1 : t.lineNumber ≠ 1 := h t (by simp) (by simpa using hb)
      simp only [md025Go, hb, if_true, if_false, Bool.false_eq_true,
        beq_iff_eq, if_neg hl1]
      exact ih fun u hu => h u (List.mem_cons_of_mem _ hu)

/-- C7 (amended): MD025 arms only on a level-1 heading whose line number is 1
and then flags every later level-1 heading; when the document's first level-1
heading is not on line 1 (whether or not it is the document's first heading),
nothing is flagged.  Tokens are assumed in document order: the level-1
headings' line numbers are strictly increasing and at least 1. -/
theorem C7_single_h1_amended
    (p : Params)
    (hmono : List.Pairwise (fun a b => a.lineNumber < b.lineNumber) (h1Tokens p.tokens))
    (hpos : ∀ t ∈ h1Tokens p.tokens, 1 ≤ t.lineNumber) :
    MD025 p =
      (match h1Tokens p.tokens with
       | [] => []
       | h :: rest => if h.lineNumber == 1 then rest.map (·.lineNumber) else []) := by
  have main : ∀ hs : List Tok,
      List.Pairwise (fun a b => a.lineNumber < b.lineNumber)
        (hs.filter (fun t => t.hLevel == 1)) →
      (∀ t ∈ hs.filter (fun t => t.hLevel == 1), 1 ≤ t.lineNumber) →
      md025Go false hs =
        (match hs.filter (fun t => t.hLevel == 1) with
         | [] => []
         | h :: rest => if h.lineNumber == 1 then rest.map (·.lineNumber) else []) := by
    intro hs
    induction hs with
    | nil => intro _ _; rfl
    | cons t rest ih =>
      intro hp hpos1
      cases hb : (t.hLevel == 1)
      · rw [List.filter_cons_of_neg (by simp [hb])] at hp hpos1 ⊢
        simp only [md025Go, hb, Bool.false_eq_true, if_false]
        exact ih hp hpos1
      · rw [List.filter_cons_of_pos (by simp [hb])] at hp hpos1 ⊢
        cases hln : (t.lineNumber == 1)
        · have h2 : 2 ≤ t.lineNumber := by
            have ha := hpos1 t (by simp)
            have hne : t.lineNumber ≠ 1 := by simpa using hln
            omega
          have hnone : ∀ u ∈ rest, u.hLevel = 1 → u.lineNumber ≠ 1 := by
            intro u hu hu1
            have hmem : u ∈ rest.filter (fun t => t.hLevel == 1) :=
              List.mem_filter.mpr ⟨hu, by simp [hu1]⟩
            have := (List.pairwise_cons.mp hp).1 u hmem
            omega
          simp only [md025Go, hb, if_true, Bool.false_eq_true, if_false, hln,
            beq_iff_eq]
          exact md025Go_unarmed rest hnone
        · simp only [md025Go, hb, hln, if_true]
          rw [md025Go_armed]
          simp [hln]
  exact main _ hmono hpos

/-- Witness for C7 (amended) at `# A / (blank) / # B`: the first level-1
heading is on line 1, so the second level-1 heading (line 3) is flagged. -/
theorem C7_amended_witness : MD025 twoH1Params = [3] := by
  have h := C7_single_h1_amended twoH1Params (by decide) (by decide)
  rw [h]
  decide

theorem sorted_emit_append {b : Bool} {v : Nat} {rest : List Nat}
    (hrest : rest.Sorted (· ≤ ·)) (hlb : ∀ m ∈ rest, v ≤ m) :
    ((if b then [v] else []) ++ rest).Sorted (· ≤ ·) := by
  cases b
  · simpa using hrest
  · simpa using List.sorted_cons.mpr ⟨hlb, hrest⟩

theorem md009Go_lb :
    ∀ (ls : List String) (i m : Nat), m ∈ md009Go i ls → i + 1 ≤ m := by
  intro ls
  induction ls with
  | nil => intro i m h; simp [md009Go] at h
  | cons l rest ih =>
    intro i m h
    simp only [md009Go, List.mem_append, mem_if_singleton] at h
    rcases h with ⟨_, hm⟩ | h
    · omega
    · have := ih (i + 1) m h; omega

theorem md009Go_sorted :
    ∀ (ls : List String) (i : Nat), (md009Go i ls).Sorted (· ≤ ·) := by
  intro ls
  induction ls with
  | nil => intro i; simp [md009Go]
  | cons l rest ih =>
    intro i
    simp only [md009Go]
    exact sorted_emit_append (ih (i + 1))
      (fun m hm => by have := md009Go_lb rest (i + 1) m hm; omega)

theorem md010Go_lb :
    ∀ (ls : List String) (i m : Nat), m ∈ md010Go i ls → i + 1 ≤ m := by
  intro ls
  induction ls with
  | nil => intro i m h; simp [md010Go] at h
  | cons l rest ih =>
    intro i m h
    simp only [md010Go, List.mem_append, mem_if_singleton] at h
    rcases h with ⟨_, hm⟩ | h
    · omega
    · have := ih (i + 1) m h; omega

theorem md010Go_sorted :
    ∀ (ls : List String) (i : Nat), (md010Go i ls).Sorted (· ≤ ·) := by
  intro ls
  induction ls with
  | nil => intro i; simp [md010Go]
  | cons l rest ih =>
    intro i
    simp only [md010Go]
    exact sorted_emit_append (ih (i + 1))
      (fun m hm => by have := md010Go_lb rest (i + 1) m hm; omega)

theorem md013Go_sorted (L : Nat) :
    ∀ (ls : List String) (i : Nat), (md013Go L i ls).Sorted (· ≤ ·) := by
  intro ls
  induction ls with
  | nil => intro i; simp [md013Go]
  | cons l rest ih =>
    intro i
    simp only [md013Go]
    refine sorted_emit_append (ih (i + 1)) (fun m hm => ?_)
    obtain ⟨j, l', _, hm', _⟩ := (md013Go_mem L rest (i + 1) m).mp hm
    omega

theorem md012Go_sorted (cl : List Nat) :
    ∀ (ls : List String) (f : Bool) (i : Nat) (prev : String),
    (md012Go prev (scanLines cl f i ls)).Sorted (· ≤ ·) := by
  intro ls
  induction ls with
  | nil => intro f i prev; simp [scanLines, md012Go]
  | cons l rest ih =>
    intro f i prev
    simp only [scanLines, md012Go]
    refine sorted_emit_append (ih _ (i + 1) _) (fun m hm => ?_)
    obtain ⟨j, l', _, hm', _⟩ := (md012Go_mem cl rest _ (i + 1) _ m).mp hm
    omega

theorem md018Go_lb (cl : List Nat) :
    ∀ (ls : List String) (f : Bool) (i m : Nat),
    m ∈ md018Go (scanLines cl f i ls) → i + 1 ≤ m := by
  intro ls
  induction ls with
  | nil => intro f i m h; simp [scanLines, md018Go] at h
  | cons l rest ih =>
    intro f i m h
    simp only [scanLines, md018Go, List.mem_append, mem_if_singleton] at h
    rcases h with ⟨_, hm⟩ | h
    · omega
    · have := ih _ (i + 1) m h; omega

theorem md018Go_sorted (cl : List Nat) :
    ∀ (ls : List String) (f : Bool) (i : Nat),
    (md018Go (scanLines cl f i ls)).Sorted (· ≤ ·) := by
  intro ls
  induction ls with
  | nil => intro f i; simp [scanLines, md018Go]
  | cons l rest ih =>
    intro f i
    simp only [scanLines, md018Go]
    exact sorted_emit_append (ih _ (i + 1))
      (fun m hm => by have := md018Go_lb cl rest _ (i + 1) m hm; omega)

theorem md020Go_lb (cl : List Nat) :
    ∀ (ls : List String) (f : Bool) (i m : Nat),
    m ∈ md020Go (scanLines cl f i ls) → i + 1 ≤ m := by
  intro ls
  induction ls with
  | nil => intro f i m h; simp [scanLines, md020Go] at h
  | cons l rest ih =>
    intro f i m h
    simp only [scanLines, md020Go, List.mem_append, mem_if_singleton] at h
    rcases h with ⟨_, hm⟩ | h
    · omega
    · have := ih _ (i + 1) m h; omega

theorem md020Go_sorted (cl : List Nat) :
    ∀ (ls : List String) (f : Bool) (i : Nat),
    (md020Go (scanLines cl f i ls)).Sorted (· ≤ ·) := by
  intro ls
  induction ls with
  | nil => intro f i; simp [scanLines, md020Go]
  | cons l rest ih =>
    intro f i
    simp only [scanLines, md020Go]
    exact sorted_emit_append (ih _ (i + 1))
      (fun m hm => by have := md020Go_lb cl rest _ (i + 1) m hm; omega)

theorem md031Go_lb (cl : List Nat) (lines : List String) :
    ∀ (ls : List String) (f : Bool) (i m : Nat),
    m ∈ md031Go lines (scanLines cl f i ls) → i + 1 ≤ m := by
  intro ls
  induction ls with
  | nil => intro f i m h; simp [scanLines, md031Go] at h
  | cons l rest ih =>
    intro f i m h
    simp only [scanLines, md031Go, List.mem_append, mem_if_singleton] at h
    rcases h with ⟨_, hm⟩ | h
    · omega
    · have := ih _ (i + 1) m h; omega

theorem md031Go_sorted (cl : List Nat) (lines : List String) :
    ∀ (ls : List String) (f : Bool) (i : Nat),
    (md031Go lines (scanLines cl f i ls)).Sorted (· ≤ ·) := by
  intro ls
  induction ls with
  | nil => intro f i; simp [scanLines, md031Go]
  | cons l rest ih =>
    intro f i
    simp only [scanLines, md031Go]
    exact sorted_emit_append (ih _ (i + 1))
      (fun m hm => by have := md031Go_lb cl lines rest _ (i + 1) m hm; omega)

theorem md032Go_lb (cl : List Nat) :
    ∀ (ls : List String) (f : Bool) (i : Nat) (inL : Bool) (prev : String) (m : Nat),
    m ∈ md032Go inL prev (scanLines cl f i ls) → i ≤ m := by
  intro ls
  induction ls with
  | nil => intro f i inL prev m h; simp [scanLines, md032Go] at h
  | cons l rest ih =>
    intro f i inL prev m h
    simp only [scanLines, md032Go, List.mem_append] at h
    rcases h with h | h
    · split_ifs at h <;> simp at h <;> omega
    · have := ih _ (i + 1) _ _ m h; omega

theorem md032Go_sorted (cl : List Nat) :
    ∀ (ls : List String) (f : Bool) (i : Nat) (inL : Bool) (prev : String),
    (md032Go inL prev (scanLines cl f i ls)).Sorted (· ≤ ·) := by
  intro ls
  induction ls with
  | nil => intro f i inL prev; simp [scanLines, md032Go]
  | cons l rest ih =>
    intro f i inL prev
    simp only [scanLines, md032Go]
    rw [List.Sorted, List.pairwise_append]
    refine ⟨?_, ih _ (i + 1) _ _, ?_⟩
    · split_ifs <;> simp
    · intro a ha b hb
      have hb' := md032Go_lb cl rest _ (i + 1) _ _ b hb
      split_ifs at ha <;> simp at ha <;> omega

theorem forEachLineCtx_inv (p : Params) (ctxs : List Ctx)
    (h : forEachLineCtx p = some ctxs) :
    ∃ cl, codeLinesOf p.tokens = some cl ∧ ctxs = scanLines cl false 0 p.lines := by
  unfold forEachLineCtx at h
  obtain ⟨cl, hcl, hctxs⟩ := Option.map_eq_some'.mp h
  exact ⟨cl, hcl, hctxs.symm⟩

/-- C4 (amended): the per-line rules MD009, MD010, MD012, MD013, MD018, MD020,
MD031 and MD032 always report line numbers in non-decreasing order, and on a
document with two adjacent headings each lacking surrounding blank lines MD022
reports the non-decreasing sequence [2, 2]; but ascending order does not hold
for every rule in the catalog: MD022's setext-underline check can emit a
smaller (0-indexed) number after a larger one. -/
theorem C4_ascending_amended :
    (∀ p : Params, (MD009 p).Sorted (· ≤ ·)) ∧
    (∀ p : Params, (MD010 p).Sorted (· ≤ ·)) ∧
    (∀ p : Params, (MD013 p).Sorted (· ≤ ·)) ∧
    (∀ (p : Params) (out : List Nat), MD012 p = some out → out.Sorted (· ≤ ·)) ∧
    (∀ (p : Params) (out : List Nat), MD018 p = some out → out.Sorted (· ≤ ·)) ∧
    (∀ (p : Params) (out : List Nat), MD020 p = some out → out.Sorted (· ≤ ·)) ∧
    (∀ (p : Params) (out : List Nat), MD031 p = some out → out.Sorted (· ≤ ·)) ∧
    (∀ (p : Params) (out : List Nat), MD032 p = some out → out.Sorted (· ≤ ·)) ∧
    MD022 twoHeadingsParams = some [2, 2] ∧
    List.Sorted (· ≤ ·) ([2, 2] : List Nat) := by
  refine ⟨fun p => md009Go_sorted p.lines 0,
          fun p => md010Go_sorted p.lines 0,
          fun p => md013Go_sorted _ p.lines 0, ?_, ?_, ?_, ?_, ?_, by decide, ?_⟩
  · intro p out hout
    unfold MD012 at hout
    obtain ⟨ctxs, hctx, heq⟩ := Option.map_eq_some'.mp hout
    obtain ⟨cl, _, hscan⟩ := forEachLineCtx_inv p ctxs hctx
    subst hscan
    rw [← heq]
    exact md012Go_sorted cl p.lines false 0 "-"
  · intro p out hout
    unfold MD018 at hout
    obtain ⟨ctxs, hctx, heq⟩ := Option.map_eq_some'.mp hout
    obtain ⟨cl, _, hscan⟩ := forEachLineCtx_inv p ctxs hctx
    subst hscan
    rw [← heq]
    exact md018Go_sorted cl p.lines false 0
  · intro p out hout
    unfold MD020 at hout
    obtain ⟨ctxs, hctx, heq⟩ := Option.map_eq_some'.mp hout
    obtain ⟨cl, _, hscan⟩ := forEachLineCtx_inv p ctxs hctx
    subst hscan
    rw [← heq]
    exact md020Go_sorted cl p.lines false 0
  · intro p out hout
    unfold MD031 at hout
    obtain ⟨ctxs, hctx, heq⟩ := Option.map_eq_some'.mp hout
    obtain ⟨cl, _, hscan⟩ := forEachLineCtx_inv p ctxs hctx
    subst hscan
    rw [← heq]
    exact md031Go_sorted cl p.lines p.lines false 0
  · intro p out hout
    unfold MD032 at hout
    obtain ⟨ctxs, hctx, heq⟩ := Option.map_eq_some'.mp hout
    obtain ⟨cl, _, hscan⟩ := forEachLineCtx_inv p ctxs hctx
    subst hscan
    rw [← heq]
    exact md032Go_sorted cl p.lines false 0 false ""
  · exact List.sorted_cons.mpr ⟨by simp, List.sorted_singleton 2⟩

/-- Witness for C4 (amended): MD012's output on the three-blank-lines document
is the non-decreasing [11, 12]. -/
theorem C4_amended_witness : ([11, 12] : List Nat).Sorted (· ≤ ·) :=
  C4_ascending_amended.2.2.2.1 threeBlanksParams [11, 12] (by decide)

theorem splice_length (l : List LD) (k : Nat) (d : LD) :
    (splice l k d).length = l.length + 1 := by
  unfold splice
  simp only [List.length_append, List.length_cons, List.length_take, List.length_drop]
  omega

theorem mem_splice (l : List LD) (k : Nat) (d : LD) (x : LD) :
    x ∈ splice l k d ↔ x = d ∨ x ∈ l := by
  unfold splice
  constructor
  · intro h
    rcases List.mem_append.mp h with h | h
    · exact Or.inr (List.mem_of_mem_take h)
    · rcases List.mem_cons.mp h with h | h
      · exact Or.inl h
      · exact Or.inr (List.mem_of_mem_drop h)
  · intro h
    rcases h with h | h
    · exact List.mem_append_right _ (h ▸ List.mem_cons_self d _)
    · conv at h => rw [← List.take_append_drop k l]
      rcases List.mem_append.mp h with h | h
      · exact List.mem_append_left _ h
      · exact List.mem_append_right _ (List.mem_cons_of_mem _ h)

theorem splice_take_of_le (l : List LD) (k m : Nat) (d : LD)
    (hkm : k ≤ m) (hkl : k ≤ l.length) :
    (splice l m d).take k = l.take k := by
  unfold splice
  rw [List.take_append_of_le_length (by simp [List.length_take]; omega), List.take_take,
    Nat.min_eq_left hkm]

theorem splice_drop_subset (l : List LD) (k m : Nat) (d : LD)
    (hkm : k ≤ m) (hkl : k ≤ l.length) (x : LD)
    (hx : x ∈ (splice l m d).drop k) :
    x = d ∨ x ∈ l.drop k := by
  unfold splice at hx
  rw [List.drop_append_of_le_length (by simp [List.length_take]; omega)] at hx
  rcases List.mem_append.mp hx with h | h
  · right
    rw [List.drop_take] at h
    exact List.mem_of_mem_take h
  · rcases List.mem_cons.mp h with h | h
    · exact Or.inl h
    · right
      have hdd : l.drop m = (l.drop k).drop (m - k) := by
        rw [List.drop_drop]
        congr 1
        omega
      rw [hdd] at h
      exact List.mem_of_mem_drop h

theorem pendsOf_some (cur : Pending) (stack : List (Option Pending)) :
    pendsOf (some cur) stack = cur :: stack.filterMap id := by
  unfold pendsOf
  simp [List.filterMap_cons]

theorem FlInv_open (i : Nat) (lists : List LD) (stack : List (Option Pending))
    (current : Option Pending) (t : Tok) (ord : Bool)
    (hinv : FlInv i lists stack current) :
    FlInv (i + 1) lists (current :: stack)
      (some ⟨ord, t, i, [], stack.length, lists.length⟩) := by
  obtain ⟨hpw, hlt, hgood, hppw⟩ := hinv
  have hpends :
      pendsOf (some ⟨ord, t, i, [], stack.length, lists.length⟩) (current :: stack)
        = ⟨ord, t, i, [], stack.length, lists.length⟩ :: pendsOf current stack := by
    unfold pendsOf
    simp [List.filterMap_cons]
  refine ⟨hpw, fun d hd => Nat.lt_succ_of_lt (hlt d hd), ?_, ?_⟩
  · rw [hpends]
    intro q hq
    rcases List.mem_cons.mp hq with h | h
    · subst h
      refine ⟨Nat.lt_succ_self i, Nat.le_refl _, ?_, ?_⟩
      · intro d hd
        exact hlt d (List.mem_of_mem_take hd)
      · intro d hd
        rw [List.drop_eq_nil_of_le (Nat.le_refl _)] at hd
        simp at hd
    · obtain ⟨g1, g2, g3, g4⟩ := hgood q h
      exact ⟨Nat.lt_succ_of_lt g1, g2, g3, g4⟩
  · rw [hpends]
    refine List.pairwise_cons.mpr ⟨?_, hppw⟩
    intro q hq
    obtain ⟨g1, g2, _, _⟩ := hgood q hq
    exact ⟨g2, g1⟩

theorem FlInv_mono (i : Nat) (lists : List LD) (stack : List (Option Pending))
    (current : Option Pending) (hinv : FlInv i lists stack current) :
    FlInv (i + 1) lists stack current := by
  obtain ⟨hpw, hlt, hgood, hppw⟩ := hinv
  refine ⟨hpw, fun d hd => Nat.lt_succ_of_lt (hlt d hd), ?_, hppw⟩
  intro q hq
  obtain ⟨g1, g2, g3, g4⟩ := hgood q hq
  exact ⟨Nat.lt_succ_of_lt g1, g2, g3, g4⟩

theorem FlInv_item (i : Nat) (lists : List LD) (stack : List (Option Pending))
    (cur cur' : Pending)
    (hidx : cur'.openIdx = cur.openIdx) (hins : cur'.insert = cur.insert)
    (hinv : FlInv i lists stack (some cur)) :
    FlInv (i + 1) lists stack (some cur') := by
  obtain ⟨hpw, hlt, hgood, hppw⟩ := hinv
  rw [pendsOf_some] at hgood hppw
  refine ⟨hpw, fun d hd => Nat.lt_succ_of_lt (hlt d hd), ?_, ?_⟩
  · rw [pendsOf_some]
    intro q hq
    rcases List.mem_cons.mp hq with h | h
    · subst h
      obtain ⟨g1, g2, g3, g4⟩ := hgood cur (List.mem_cons_self _ _)
      refine ⟨by rw [hidx]; omega, by rw [hins]; exact g2, ?_, ?_⟩
      · rw [hins, hidx]; exact g3
      · rw [hins, hidx]; exact g4
    · obtain ⟨g1, g2, g3, g4⟩ := hgood q (List.mem_cons_of_mem _ h)
      exact ⟨Nat.lt_succ_of_lt g1, g2, g3, g4⟩
  · rw [pendsOf_some]
    refine List.pairwise_cons.mpr ⟨?_, (List.pairwise_cons.mp hppw).2⟩
    intro q hq
    have hr := (List.pairwise_cons.mp hppw).1 q hq
    exact ⟨by rw [hins]; exact hr.1, by rw [hidx]; exact hr.2⟩

theorem FlInv_close (fb : Option Bool) (i b : Nat) (lists : List LD)
    (stack : List (Option Pending)) (cur : Pending)
    (cur' : Option Pending) (stack' : List (Option Pending))
    (hpop : pendsOf cur' stack' = stack.filterMap id)
    (hinv : FlInv i lists stack (some cur)) :
    FlInv (i + 1) (closeStep fb lists cur b) stack' cur' := by
  obtain ⟨hpw, hlt, hgood, hppw⟩ := hinv
  rw [pendsOf_some] at hgood hppw
  obtain ⟨hc1, hc2, hc3, hc4⟩ := hgood cur (List.mem_cons_self _ _)
  have htailgood : ∀ q ∈ stack.filterMap id, goodPend i lists q :=
    fun q hq => hgood q (List.mem_cons_of_mem _ hq)
  have htailrel : ∀ q ∈ stack.filterMap id,
      q.insert ≤ cur.insert ∧ q.openIdx < cur.openIdx :=
    (List.pairwise_cons.mp hppw).1
  have htailpw := (List.pairwise_cons.mp hppw).2
  unfold closeStep
  by_cases hfb : (match fb with
    | none => true
    | some v => v == cur.ordered) = true
  · rw [if_pos hfb]
    have hdidx : (closedLD cur b).openIdx = cur.openIdx := rfl
    refine ⟨?_, ?_, ?_, ?_⟩
    · unfold splice
      rw [List.pairwise_append]
      refine ⟨hpw.sublist (List.take_sublist _ _), ?_, ?_⟩
      · refine List.pairwise_cons.mpr ⟨?_, hpw.sublist (List.drop_sublist _ _)⟩
        intro x hx
        rw [hdidx]
        exact hc4 x hx
      · intro x hx y hy
        rcases List.mem_cons.mp hy with h | h
        · subst h
          rw [hdidx]
          exact hc3 x hx
        · have hsplit := (List.pairwise_append.mp
            (by rw [List.take_append_drop]; exact hpw : (lists.take cur.insert ++
              lists.drop cur.insert).Pairwise (fun a b => a.openIdx < b.openIdx))).2.2
          exact hsplit x hx y h
    · intro x hx
      rcases (mem_splice lists cur.insert _ x).mp hx with h | h
      · subst h
        rw [hdidx]
        omega
      · exact Nat.lt_succ_of_lt (hlt x h)
    · rw [hpop]
      intro q hq
      obtain ⟨g1, g2, g3, g4⟩ := htailgood q hq
      obtain ⟨hqi, hqo⟩ := htailrel q hq
      refine ⟨Nat.lt_succ_of_lt g1, ?_, ?_, ?_⟩
      · rw [splice_length]
        omega
      · rw [splice_take_of_le lists q.insert cur.insert _ hqi g2]
        exact g3
      · intro x hx
        rcases splice_drop_subset lists q.insert cur.insert _ hqi g2 x hx with h | h
        · subst h
          rw [hdidx]
          exact hqo
        · exact g4 x h
    · rw [hpop]
      exact htailpw
  · rw [if_neg hfb]
    refine ⟨hpw, fun x hx => Nat.lt_succ_of_lt (hlt x hx), ?_, ?_⟩
    · rw [hpop]
      intro q hq
      obtain ⟨g1, g2, g3, g4⟩ := htailgood q hq
      exact ⟨Nat.lt_succ_of_lt g1, g2, g3, g4⟩
    · rw [hpop]
      exact htailpw

theorem flGo_sorted (fb : Option Bool) :
    ∀ (ts : List Tok) (i : Nat) (lists : List LD) (stack : List (Option Pending))
      (current : Option Pending) (lastWL : Option Tok) (out : List LD),
    FlInv i lists stack current →
    flGo fb ts i lists stack current lastWL = some out →
    out.Pairwise (fun a b => a.openIdx < b.openIdx) := by
  intro ts
  induction ts with
  | nil =>
    intro i lists stack current lastWL out hinv hout
    simp only [flGo, Option.some.injEq] at hout
    exact hout ▸ hinv.1
  | cons t rest ih =>
    intro i lists stack current lastWL out hinv hout
    simp only [flGo] at hout
    split_ifs at hout with h1 h2 h3 h4
    · exact ih _ _ _ _ _ _ (FlInv_open i lists stack current t _ hinv) hout
    · rcases current with _ | cur
      · simp at hout
      · rcases lastWL with _ | lw
        · simp at hout
        · rcases hlw : lw.lines with _ | ⟨a, b⟩ <;> simp only [hlw] at hout
          · simp at hout
          · rcases stack with _ | ⟨c, s⟩
            · exact ih _ _ _ _ _ _ (FlInv_close fb i b lists [] cur none [] rfl hinv) hout
            · exact ih _ _ _ _ _ _
                (FlInv_close fb i b lists (c :: s) cur c s rfl hinv) hout
    · rcases current with _ | cur
      · simp at hout
      · exact ih _ _ _ _ _ _ (FlInv_item i lists stack cur
          ⟨cur.ordered, cur.openTok, cur.openIdx, cur.items ++ [t], cur.nesting, cur.insert⟩
          rfl rfl hinv) hout
    · exact ih _ _ _ _ _ _ (FlInv_mono i lists stack current hinv) hout
    · exact ih _ _ _ _ _ _ (FlInv_mono i lists stack current hinv) hout

theorem closedLD_eq_of_core {cu cf : Pending} (b : Nat) (h : pendEqCore cu cf) :
    closedLD cf b = closedLD cu b := by
  obtain ⟨e1, e2, e3, e4, e5⟩ := h
  unfold closedLD
  rw [e1, e2, e3, e4, e5]

theorem closeStep_mem_rel (v : Bool) (b : Nat) {lU lF : List LD} {cu cf : Pending}
    (hcur : pendEqCore cu cf)
    (hmem : ∀ d, d ∈ lF ↔ d ∈ lU ∧ (d.ordered == v) = true) :
    ∀ d, d ∈ closeStep (some v) lF cf b ↔
      d ∈ closeStep none lU cu b ∧ (d.ordered == v) = true := by
  intro d
  unfold closeStep
  have hord : cu.ordered = cf.ordered := hcur.1
  have hD : (closedLD cu b).ordered = cu.ordered := rfl
  rw [if_pos (rfl : (true : Bool) = true), closedLD_eq_of_core b hcur]
  by_cases hv : (v == cf.ordered) = true
  · rw [if_pos hv, mem_splice, mem_splice]
    have hv' : cf.ordered = v := (beq_iff_eq.mp hv).symm
    constructor
    · rintro (h | h)
      · subst h
        exact ⟨Or.inl rfl, by rw [beq_iff_eq, hD, hord, hv']⟩
      · obtain ⟨m1, m2⟩ := (hmem d).mp h
        exact ⟨Or.inr m1, m2⟩
    · rintro ⟨h | h, hp⟩
      · exact Or.inl h
      · exact Or.inr ((hmem d).mpr ⟨h, hp⟩)
  · rw [if_neg hv]
    constructor
    · intro h
      obtain ⟨m1, m2⟩ := (hmem d).mp h
      exact ⟨(mem_splice _ _ _ _).mpr (Or.inr m1), m2⟩
    · rintro ⟨h, hp⟩
      rcases (mem_splice _ _ _ _).mp h with h | h
      · exfalso
        apply hv
        rw [beq_iff_eq]
        have : d.ordered = v := beq_iff_eq.mp hp
        rw [← this, h, hD, hord]
      · exact (hmem d).mpr ⟨h, hp⟩

theorem flGo_filter_mem (v : Bool) :
    ∀ (ts : List Tok) (i : Nat) (listsU listsF : List LD)
      (stackU stackF : List (Option Pending)) (curU curF : Option Pending)
      (lastWL : Option Tok) (outU outF : List LD),
    (∀ d, d ∈ listsF ↔ d ∈ listsU ∧ (d.ordered == v) = true) →
    List.Forall₂ optPendRel stackU stackF →
    optPendRel curU curF →
    flGo none ts i listsU stackU curU lastWL = some outU →
    flGo (some v) ts i listsF stackF curF lastWL = some outF →
    (∀ d, d ∈ outF ↔ d ∈ outU ∧ (d.ordered == v) = true) := by
  intro ts
  induction ts with
  | nil =>
    intro i lU lF sU sF cU cF lw outU outF hmem hst hcur houtU houtF
    simp only [flGo, Option.some.injEq] at houtU houtF
    exact houtU ▸ houtF ▸ hmem
  | cons t rest ih =>
    intro i lU lF sU sF cU cF lw outU outF hmem hst hcur houtU houtF
    simp only [flGo] at houtU houtF
    split_ifs at houtU houtF with h1 h2 h3
    · refine ih _ _ _ _ _ _ _ _ _ _ hmem (List.Forall₂.cons hcur hst) ?_ houtU houtF
      exact ⟨rfl, rfl, rfl, rfl, hst.length_eq⟩
    · rcases cU with _ | cu <;> rcases cF with _ | cf
      · simp at houtU
      · exact absurd hcur (by simp [optPendRel])
      · exact absurd hcur (by simp [optPendRel])
      · rcases lw with _ | lwtok
        · simp at houtU
        · rcases hlw : lwtok.lines with _ | ⟨a, b⟩ <;>
            simp only [hlw] at houtU houtF
          · simp at houtU
          · have hmem' := closeStep_mem_rel v b hcur hmem
            cases hst with
            | nil =>
              exact ih (i + 1) (closeStep none lU cu b) (closeStep (some v) lF cf b)
                [] [] none none (some lwtok) outU outF hmem' List.Forall₂.nil
                True.intro houtU houtF
            | cons hrel hst' => exact ih _ _ _ _ _ _ _ _ _ _ hmem' hst' hrel houtU houtF
    · rcases cU with _ | cu <;> rcases cF with _ | cf
      · simp at houtU
      · exact absurd hcur (by simp [optPendRel])
      · exact absurd hcur (by simp [optPendRel])
      · obtain ⟨e1, e2, e3, e4, e5⟩ := hcur
        refine ih _ _ _ _ _ _ _ _ _ _ hmem hst ?_ houtU houtF
        exact ⟨e1, e2, e3, by rw [e4], e5⟩
    · exact ih _ _ _ _ _ _ _ _ _ _ hmem hst hcur houtU houtF
    · exact ih _ _ _ _ _ _ _ _ _ _ hmem hst hcur houtU houtF

theorem eq_of_mem_iff_of_pairwise_lt :
    ∀ (l₁ l₂ : List LD),
    l₁.Pairwise (fun a b => a.openIdx < b.openIdx) →
    l₂.Pairwise (fun a b => a.openIdx < b.openIdx) →
    (∀ d, d ∈ l₁ ↔ d ∈ l₂) → l₁ = l₂ := by
  intro l₁
  induction l₁ with
  | nil =>
    intro l₂ _ _ hm
    cases l₂ with
    | nil => rfl
    | cons bb t => exact absurd ((hm bb).mpr (List.mem_cons_self bb t)) (by simp)
  | cons a t₁ ih =>
    intro l₂ hp₁ hp₂ hm
    cases l₂ with
    | nil => exact absurd ((hm a).mp (List.mem_cons_self a t₁)) (by simp)
    | cons bb t₂ =>
      have hab : a = bb := by
        rcases List.mem_cons.mp ((hm a).mp (List.mem_cons_self a t₁)) with h | h
        · exact h
        · have hba := (List.pairwise_cons.mp hp₂).1 a h
          rcases List.mem_cons.mp ((hm bb).mpr (List.mem_cons_self bb t₂)) with h' | h'
          · exact h'.symm
          · have hab' := (List.pairwise_cons.mp hp₁).1 bb h'
            omega
      subst hab
      congr 1
      apply ih t₂ (List.pairwise_cons.mp hp₁).2 (List.pairwise_cons.mp hp₂).2
      intro d
      constructor
      · intro hd
        have hlt := (List.pairwise_cons.mp hp₁).1 d hd
        rcases List.mem_cons.mp ((hm d).mp (List.mem_cons_of_mem _ hd)) with h | h
        · exfalso; rw [h] at hlt; omega
        · exact h
      · intro hd
        have hlt := (List.pairwise_cons.mp hp₂).1 d hd
        rcases List.mem_cons.mp ((hm d).mpr (List.mem_cons_of_mem _ hd)) with h | h
        · exfalso; rw [h] at hlt; omega
        · exact h

/-- C5: the flat sequence `flattenLists` returns is strictly ordered by the
position of each list's open token in the token sequence — so every list
descriptor appears before every list nested inside it (a nested list's open
token comes strictly after its enclosing list's) and sibling lists retain
document order — and for either orderedness filter the output is exactly the
orderedness-filtered subsequence of the unfiltered output, so filtering
preserves the relative order of the descriptors that remain. -/
theorem C5_flatten_ordering (tokens : List Tok) :
    (∀ (fb : Option Bool) (out : List LD), flattenLists tokens fb = some out →
      out.Pairwise (fun a b => a.openIdx < b.openIdx)) ∧
    (∀ (v : Bool) (outU outF : List LD),
      flattenLists tokens none = some outU →
      flattenLists tokens (some v) = some outF →
      outF = outU.filter (fun d => d.ordered == v)) := by
  have hinv0 : FlInv 0 [] [] none := by
    refine ⟨List.Pairwise.nil, by simp, ?_, ?_⟩
    · intro q hq
      simp [pendsOf] at hq
    · unfold pendsOf
      simp
  constructor
  · intro fb out hout
    exact flGo_sorted fb tokens 0 [] [] none none out hinv0 hout
  · intro v outU outF houtU houtF
    have hmem := flGo_filter_mem v tokens 0 [] [] [] [] none none none outU outF
      (by intro d; simp) List.Forall₂.nil (True.intro : optPendRel none none) houtU houtF
    have hpwU := flGo_sorted none tokens 0 [] [] none none outU hinv0 houtU
    have hpwF := flGo_sorted (some v) tokens 0 [] [] none none outF hinv0 houtF
    apply eq_of_mem_iff_of_pairwise_lt outF _ hpwF
      (hpwU.sublist (List.filter_sublist outU))
    intro d
    rw [hmem d, List.mem_filter]

/-- Witness for C5 at a bullet list containing a nested ordered list: the flat
output is ordered by open position, and the ordered-only filter equals the
filtered unfiltered output. -/
theorem C5_witness :
    ∃ out, flattenLists nestedListTokens none = some out ∧
      out.Pairwise (fun a b => a.openIdx < b.openIdx) ∧
      ∃ outF, flattenLists nestedListTokens (some true) = some outF ∧
        outF = out.filter (fun d => d.ordered == true) := by
  obtain ⟨out, hout⟩ : ∃ out, flattenLists nestedListTokens none = some out := ⟨_, rfl⟩
  refine ⟨out, hout, (C5_flatten_ordering nestedListTokens).1 none out hout, ?_⟩
  obtain ⟨outF, houtF⟩ : ∃ o, flattenLists nestedListTokens (some true) = some o := ⟨_, rfl⟩
  exact ⟨outF, houtF, (C5_flatten_ordering nestedListTokens).2 true out outF hout houtF⟩

end Markdownlint
